import Mathlib

/-
  Verification of the binary field codec of the TheoTown save editor
  (BinaryFields in the repository's binary-fields module, and the low
  level helpers of BinaryUtils).

  The byte buffer (a JS Uint8Array) is modelled as a list of naturals,
  one per byte.  A JS string is modelled as its sequence of UTF-16 code
  units (so JS `s.length` is `List.length` and `s.substring(0, k)` is
  `List.take k`).  Out-of-range reads of a Uint8Array yield `undefined`,
  which all the bitwise contexts of the source coerce to 0, so reads are
  modelled with `List.getD _ _ 0`; out-of-range element writes are
  silently dropped, which matches `List.set`.  A thrown RangeError of
  `TypedArray.set` / `DataView` is modelled as `none`.
-/

namespace TheoTown

/-- Byte buffer: the decompressed save body, one natural per byte. -/
abbrev Buffer := List Nat

/-- JS string, modelled as its UTF-16 code units. -/
abbrev JSString := List Nat

/-- Read a byte; 0 outside the buffer (matching the bitwise coercion of
`undefined` in every read site of the source). -/
def byteAt (d : Buffer) (i : Nat) : Nat := d.getD i 0

/-- UTF-8 bytes of a single UTF-16 code unit outside a surrogate pair
(lone surrogates become U+FFFD, as TextEncoder does). -/
def utf8EncodeOne (u : Nat) : List Nat :=
  if u < 0x80 then [u]
  else if u < 0x800 then [0xC0 + u / 0x40, 0x80 + u % 0x40]
  else if 0xD800 ≤ u ∧ u < 0xE000 then [0xEF, 0xBF, 0xBD]
  else [0xE0 + u / 0x1000, 0x80 + u / 0x40 % 0x40, 0x80 + u % 0x40]

/-- TextEncoder().encode: UTF-8 bytes of a UTF-16 code-unit sequence,
pairing surrogates. -/
def utf8EncodeUnits : JSString → List Nat
  | [] => []
  | [u] => utf8EncodeOne u
  | u :: v :: rest =>
    if 0xD800 ≤ u ∧ u < 0xDC00 ∧ 0xDC00 ≤ v ∧ v < 0xE000 then
      let c := 0x10000 + (u - 0xD800) * 0x400 + (v - 0xDC00)
      [0xF0 + c / 0x40000, 0x80 + c / 0x1000 % 0x40, 0x80 + c / 0x40 % 0x40,
        0x80 + c % 0x40] ++ utf8EncodeUnits rest
    else utf8EncodeOne u ++ utf8EncodeUnits (v :: rest)

/-- TextDecoder('utf-8') in its default non-fatal mode: well-formed
sequences decode to code units (astral code points to surrogate pairs),
malformed input produces U+FFFD replacement characters.  Each step
consumes at least one byte, so running on fuel equal to the byte count
(as `utf8Decode` below does) always suffices; the fuel only makes the
recursion structural. -/
def utf8DecodeAux : Nat → List Nat → List Nat
  | 0, _ => []
  | fuel + 1, l =>
    match l with
    | [] => []
    | b :: rest =>
      if b < 0x80 then b :: utf8DecodeAux fuel rest
      else if 0xC2 ≤ b ∧ b < 0xE0 then
        match rest with
        | [] => [0xFFFD]
        | b2 :: rest2 =>
          if 0x80 ≤ b2 ∧ b2 < 0xC0 then
            ((b - 0xC0) * 0x40 + (b2 - 0x80)) :: utf8DecodeAux fuel rest2
          else 0xFFFD :: utf8DecodeAux fuel (b2 :: rest2)
      else if 0xE0 ≤ b ∧ b < 0xF0 then
        match rest with
        | b2 :: b3 :: rest3 =>
          if 0x80 ≤ b2 ∧ b2 < 0xC0 ∧ 0x80 ≤ b3 ∧ b3 < 0xC0 then
            ((b - 0xE0) * 0x1000 + (b2 - 0x80) * 0x40 + (b3 - 0x80)) ::
              utf8DecodeAux fuel rest3
          else 0xFFFD :: utf8DecodeAux fuel (b2 :: b3 :: rest3)
        | [b2] => 0xFFFD :: utf8DecodeAux fuel [b2]
        | [] => [0xFFFD]
      else if 0xF0 ≤ b ∧ b < 0xF5 then
        match rest with
        | b2 :: b3 :: b4 :: rest4 =>
          if 0x80 ≤ b2 ∧ b2 < 0xC0 ∧ 0x80 ≤ b3 ∧ b3 < 0xC0 ∧ 0x80 ≤ b4 ∧ b4 < 0xC0 then
            let c := (b - 0xF0) * 0x40000 + (b2 - 0x80) * 0x1000 +
              (b3 - 0x80) * 0x40 + (b4 - 0x80)
            (0xD800 + (c - 0x10000) / 0x400) :: (0xDC00 + (c - 0x10000) % 0x400) ::
              utf8DecodeAux fuel rest4
          else 0xFFFD :: utf8DecodeAux fuel (b2 :: b3 :: b4 :: rest4)
        | [b2, b3] => 0xFFFD :: utf8DecodeAux fuel [b2, b3]
        | [b2] => 0xFFFD :: utf8DecodeAux fuel [b2]
        | [] => [0xFFFD]
      else 0xFFFD :: utf8DecodeAux fuel rest

/-- TextDecoder('utf-8').decode of a byte list. -/
def utf8Decode (l : List Nat) : List Nat := utf8DecodeAux l.length l

/-- First index `i < n` satisfying `p` — the linear scan of the source's
`for` loop in findField. -/
def scanFirst (p : Nat → Bool) : Nat → Option Nat
  | 0 => none
  | n + 1 =>
    match scanFirst p n with
    | some i => some i
    | none => if p n then some n else none

/-- Field descriptor returned by BinaryFields.findField. -/
structure FieldInfo where
  nameOffset : Nat
  typeOffset : Nat
  valueOffset : Nat
  type : Nat
deriving DecidableEq

/-- One probe of the findField scan, through a byte accessor `get`:
the length byte at `i` must equal the pattern length and the following
bytes must equal the pattern. -/
def matchAtG (get : Nat → Nat) (pattern : List Nat) (i : Nat) : Bool :=
  get i == pattern.length &&
    (List.range pattern.length).all fun j => get (i + 1 + j) == pattern.getD j 0

/-- BinaryFields.findField, generic in the byte accessor: scan
`i = 0, 1, ...` while `i < len - pattern.length - 2`, return the first
match as a descriptor (bool tags 0x11/0x12 are zero-width: the value
offset is the type offset itself). -/
def findFieldG (len : Nat) (get : Nat → Nat) (pattern : List Nat) : Option FieldInfo :=
  (scanFirst (matchAtG get pattern) (len - pattern.length - 2)).map fun i =>
    let typeOffset := i + 1 + pattern.length
    let typeByte := get typeOffset
    { nameOffset := i
      typeOffset := typeOffset
      valueOffset := if typeByte = 0x11 ∨ typeByte = 0x12 then typeOffset else typeOffset + 1
      type := typeByte }

/-- The probe on a concrete buffer. -/
def matchAtP (data : Buffer) (pattern : List Nat) (i : Nat) : Bool :=
  matchAtG (byteAt data) pattern i

/-- findField on a buffer, given the already-encoded pattern. -/
def findFieldP (data : Buffer) (pattern : List Nat) : Option FieldInfo :=
  findFieldG data.length (byteAt data) pattern

/-- BinaryFields.findField: encode the field name with TextEncoder and
scan for it. -/
def findField (data : Buffer) (fieldName : JSString) : Option FieldInfo :=
  findFieldP data (utf8EncodeUnits fieldName)

/-- Signed 32-bit reinterpretation of a bit pattern: the result of the
JS shift-or chain, whose `<< 24` term carries the sign. -/
def toSigned32 (n : Nat) : Int := if n < 2 ^ 31 then (n : Int) else (n : Int) - 2 ^ 32

/-- Big-endian 16-bit read, `(data[i] << 8) | data[i+1]`. -/
def readU16 (d : Buffer) (i : Nat) : Nat := byteAt d i * 256 + byteAt d (i + 1)

/-- Big-endian 32-bit bit pattern, the unsigned view of the shift-or chain. -/
def readU32 (d : Buffer) (i : Nat) : Nat :=
  byteAt d i * 2 ^ 24 + byteAt d (i + 1) * 2 ^ 16 + byteAt d (i + 2) * 2 ^ 8 + byteAt d (i + 3)

/-- Big-endian byte expansion (`w` bytes) of a bit pattern. -/
def bytesOfNatBE : Nat → Nat → List Nat
  | 0, _ => []
  | w + 1, n => bytesOfNatBE w (n / 256) ++ [n % 256]

/-- Recombine big-endian bytes into a bit pattern. -/
def natOfBytesBE (l : List Nat) : Nat := l.foldl (fun a b => a * 256 + b) 0

/-- DataView.getFloat64 (big-endian) of a 64-bit pattern, as an exact
rational.  Finite doubles are exactly `±(2^52+m)·2^(e-1075)` (normal) or
`±m·2^(-1074)` (subnormal); the non-finite patterns (`e = 2047`) have no
rational value and are modelled as `none` (never produced by the writes
verified here). -/
def decodeF64 (bits : Nat) : Option ℚ :=
  if bits / 2 ^ 52 % 2 ^ 11 = 2047 then none
  else
    some ((if bits / 2 ^ 63 % 2 = 1 then (-1 : ℚ) else 1) *
      (if bits / 2 ^ 52 % 2 ^ 11 = 0 then ((bits % 2 ^ 52 : Nat) : ℚ) / 2 ^ 1074
       else if 1075 ≤ bits / 2 ^ 52 % 2 ^ 11 then
         ((2 ^ 52 + bits % 2 ^ 52 : Nat) : ℚ) * 2 ^ (bits / 2 ^ 52 % 2 ^ 11 - 1075)
       else ((2 ^ 52 + bits % 2 ^ 52 : Nat) : ℚ) / 2 ^ (1075 - bits / 2 ^ 52 % 2 ^ 11)))

/-- DataView.setFloat64 (big-endian) of an integer-valued JS number: the
64-bit pattern.  Exact (equal to IEEE-754 round-to-nearest) whenever
`|v| ≤ 2^53`; larger magnitudes truncate toward zero instead of rounding
to nearest, and the overflow to infinity is not modelled — all writes
verified here stay well inside the exact range. -/
def encodeF64ofInt (v : Int) : Nat :=
  if v = 0 then 0
  else
    let n := v.natAbs
    let e := Nat.log2 n
    let s : Nat := if v < 0 then 1 else 0
    s * 2 ^ 63 + (1023 + e) * 2 ^ 52 + (n * 2 ^ 52 / 2 ^ e - 2 ^ 52)

/-- Element-by-element copy of `src` into `d` starting at `off`
(out-of-range elements are silently dropped, as for a Uint8Array). -/
def setManyAux : Buffer → Nat → List Nat → Buffer
  | d, _, [] => d
  | d, off, b :: rest => setManyAux (d.set off b) (off + 1) rest

/-- TypedArray.set: copies `src` into `d` at `off`, but throws (here:
`none`) when the source would overrun the target. -/
def setMany (d : Buffer) (off : Nat) (src : List Nat) : Option Buffer :=
  if off + src.length ≤ d.length then some (setManyAux d off src) else none

/-- BinaryFields.MAX_RANK. -/
def MAX_RANK : Nat := 64

/-- BinaryFields.GAMEMODES: EASY, NORMAL, HARD, SANDBOX (as code units). -/
def GAMEMODES : List JSString :=
  [[69, 65, 83, 89], [78, 79, 82, 77, 65, 76], [72, 65, 82, 68], [83, 65, 78, 68, 66, 79, 88]]

/-- BinaryFields.readEstate: double (0x07) branch reads 8 bytes big-endian
(a short slice makes getFloat64 throw, modelled `none`); int32 (0x08)
branch is the signed shift-or chain; other tags return null. -/
def readEstate (data : Buffer) (field : Option FieldInfo) : Option ℚ :=
  match field with
  | none => none
  | some f =>
    if f.type = 0x07 then
      let bytes := (data.drop f.valueOffset).take 8
      if bytes.length = 8 then decodeF64 (natOfBytesBE bytes) else none
    else if f.type = 0x08 then
      some ((toSigned32 (readU32 data f.valueOffset) : Int) : ℚ)
    else none

/-- BinaryFields.writeEstate: double branch stores the 8 setFloat64
bytes; int32 branch clamps to [0, 2147483647] (Math.floor is the
identity on the Int-valued inputs modelled here) and stores 4 bytes
big-endian; other tags do nothing. -/
def writeEstate (data : Buffer) (field : Option FieldInfo) (value : Int) : Buffer :=
  match field with
  | none => data
  | some f =>
    if f.type = 0x07 then
      setManyAux data f.valueOffset (bytesOfNatBE 8 (encodeF64ofInt value))
    else if f.type = 0x08 then
      let v := (max 0 (min 2147483647 value)).toNat
      ((((data.set f.valueOffset (v >>> 24 &&& 255)).set
          (f.valueOffset + 1) (v >>> 16 &&& 255)).set
          (f.valueOffset + 2) (v >>> 8 &&& 255)).set
          (f.valueOffset + 3) (v &&& 255))
    else data

/-- BinaryFields.readRank: int16 (0x0e) or int8 (0x0f), otherwise null. -/
def readRank (data : Buffer) (field : Option FieldInfo) : Option Nat :=
  match field with
  | none => none
  | some f =>
    if f.type = 0x0e then some (readU16 data f.valueOffset)
    else if f.type = 0x0f then some (byteAt data f.valueOffset)
    else none

/-- BinaryFields.writeRank: clamp to [0, MAX_RANK], then store per tag. -/
def writeRank (data : Buffer) (field : Option FieldInfo) (value : Int) : Buffer :=
  match field with
  | none => data
  | some f =>
    let v := (max 0 (min (MAX_RANK : Int) value)).toNat
    if f.type = 0x0e then
      (data.set f.valueOffset (v >>> 8 &&& 255)).set (f.valueOffset + 1) (v &&& 255)
    else if f.type = 0x0f then data.set f.valueOffset (v &&& 255)
    else data

/-- BinaryFields.readUber: the tag itself is the value (0x11 = TRUE). -/
def readUber (data : Buffer) (field : Option FieldInfo) : Option Bool :=
  match field with
  | none => none
  | some f => some (f.type == 0x11)

/-- BinaryFields.writeUber: overwrite the tag byte with 0x11 / 0x12. -/
def writeUber (data : Buffer) (field : Option FieldInfo) (value : Bool) : Buffer :=
  match field with
  | none => data
  | some f => data.set f.typeOffset (if value then 0x11 else 0x12)

/-- Shared body of readGamemode and readName: 2-byte big-endian length
at valueOffset, then that many string bytes, decoded as UTF-8. -/
def readStringField (data : Buffer) (f : FieldInfo) : JSString :=
  let strLen := readU16 data f.valueOffset
  utf8Decode ((data.drop (f.valueOffset + 2)).take strLen)

/-- BinaryFields.readGamemode: must be a string field (0x16). -/
def readGamemode (data : Buffer) (field : Option FieldInfo) : Option JSString :=
  match field with
  | none => none
  | some f => if f.type = 0x16 then some (readStringField data f) else none

/-- BinaryFields.readName: identical body to readGamemode. -/
def readName (data : Buffer) (field : Option FieldInfo) : Option JSString :=
  match field with
  | none => none
  | some f => if f.type = 0x16 then some (readStringField data f) else none

/-- BinaryFields.readDsaSupplies: must be int16 (0x0e). -/
def readDsaSupplies (data : Buffer) (field : Option FieldInfo) : Option Nat :=
  match field with
  | none => none
  | some f => if f.type = 0x0e then some (readU16 data f.valueOffset) else none

/-- BinaryFields.writeDsaSupplies: silently returns on a non-0x0e tag,
otherwise clamps to [0, 32767] and stores 2 bytes big-endian. -/
def writeDsaSupplies (data : Buffer) (field : Option FieldInfo) (value : Int) : Buffer :=
  match field with
  | none => data
  | some f =>
    if f.type = 0x0e then
      let v := (max 0 (min 32767 value)).toNat
      (data.set f.valueOffset (v >>> 8 &&& 255)).set (f.valueOffset + 1) (v &&& 255)
    else data

/-- Different-length branch shared by writeGamemode and writeName:
allocate `len + newLen - currentLen` zeroed bytes (a negative size
throws, modelled `none`), copy the bytes before valueOffset, write the
new 2-byte length, the new string bytes, and the bytes after the old
value. -/
def rebuildString (data : Buffer) (v currentLen newLen : Nat) (newBytes : List Nat) :
    Option Buffer :=
  if data.length + newLen < currentLen then none
  else
    let size := data.length + newLen - currentLen
    (setMany (List.replicate size 0) 0 (data.take v)).bind fun d1 =>
      let d2 := (d1.set v (newLen >>> 8 &&& 255)).set (v + 1) (newLen &&& 255)
      (setMany d2 (v + 2) newBytes).bind fun d3 =>
        setMany d3 (v + 2 + newLen) (data.drop (v + 2 + currentLen))

/-- Shared body of writeGamemode and writeName after their own checks:
read the current 2-byte length, encode the new text, overwrite in place
when the length (in code units, as the source compares `newName.length`)
is unchanged, otherwise rebuild the buffer. -/
def replaceStringValue (data : Buffer) (v : Nat) (s : JSString) : Option Buffer :=
  let currentLen := readU16 data v
  let newLen := s.length
  let newBytes := utf8EncodeUnits s
  if newLen = currentLen then some (setManyAux data (v + 2) (newBytes.take newLen))
  else rebuildString data v currentLen newLen newBytes

/-- BinaryFields.writeGamemode: string tag required, value must be one of
GAMEMODES, then replace the string value. -/
def writeGamemode (data : Buffer) (field : Option FieldInfo) (g : JSString) : Option Buffer :=
  match field with
  | none => none
  | some f =>
    if f.type ≠ 0x16 then none
    else if g ∉ GAMEMODES then none
    else replaceStringValue data f.valueOffset g

/-- BinaryFields.writeName: string tag required, names longer than 255
code units are silently truncated, then replace the string value. -/
def writeName (data : Buffer) (field : Option FieldInfo) (newName : JSString) : Option Buffer :=
  match field with
  | none => none
  | some f =>
    if f.type ≠ 0x16 then none
    else replaceStringValue data f.valueOffset
      (if newName.length > 255 then newName.take 255 else newName)

/-- BinaryUtils.readInt32BE: bounds-checked big-endian read that returns
0 (not an error) when the window does not fit. -/
def readInt32BE (data : Option Buffer) (off : Int) : Int :=
  match data with
  | none => 0
  | some d => if off < 0 ∨ d.length < off + 4 then 0 else toSigned32 (readU32 d off.toNat)

/-- BinaryUtils.readInt16BE: bounds-checked big-endian read that returns
0 (not an error) when the window does not fit. -/
def readInt16BE (data : Option Buffer) (off : Int) : Int :=
  match data with
  | none => 0
  | some d => if off < 0 ∨ d.length < off + 2 then 0 else (readU16 d off.toNat : Int)

/-- Wire name "estate". -/
def nameEstate : JSString := [101, 115, 116, 97, 116, 101]

/-- Wire name "rank lvl". -/
def nameRank : JSString := [114, 97, 110, 107, 32, 108, 118, 108]

/-- Wire name "uber". -/
def nameUber : JSString := [117, 98, 101, 114]

/-- Wire name "gamemode". -/
def nameGamemode : JSString := [103, 97, 109, 101, 109, 111, 100, 101]

/-- Wire name "name". -/
def nameCity : JSString := [110, 97, 109, 101]

/-- Concrete buffer holding a "rank lvl" field tagged 0x0e with value 5. -/
def demoRank : Buffer :=
  [0, 8, 114, 97, 110, 107, 32, 108, 118, 108, 0x0e, 0, 5, 0]

/-- Concrete buffer holding an "estate" field tagged 0x08 (int32) with value 100. -/
def demoEstate8 : Buffer :=
  [6, 101, 115, 116, 97, 116, 101, 0x08, 0, 0, 0, 100, 0, 0]

/-- Concrete buffer holding an "estate" field tagged 0x07 (double) with value 100.0. -/
def demoEstate7 : Buffer :=
  [6, 101, 115, 116, 97, 116, 101, 0x07, 0x40, 0x59, 0, 0, 0, 0, 0, 0, 0]

/-- Concrete buffer holding an "uber" field tagged 0x11 (TRUE). -/
def demoUber : Buffer := [4, 117, 98, 101, 114, 0x11, 0]

/-- Concrete buffer holding a "name" field (value "Foo") followed by a
"gamemode" field (value "EASY"). -/
def demoStr : Buffer :=
  [4, 110, 97, 109, 101, 0x16, 0, 3, 70, 111, 111,
   0, 0, 0, 0,
   8, 103, 97, 109, 101, 109, 111, 100, 101, 0x16, 0, 4, 69, 65, 83, 89, 0]

/-- Concrete buffer whose "gamemode" field holds "WEIRD", a value outside
the GAMEMODES enumeration. -/
def demoWeird : Buffer :=
  [8, 103, 97, 109, 101, 109, 111, 100, 101, 0x16, 0, 5, 87, 69, 73, 82, 68, 0]

/-- Concrete buffer holding a "name" field (tag 0x16) with the one-byte
value "A". -/
def demoName1 : Buffer := [4, 110, 97, 109, 101, 0x16, 0, 1, 65, 0]

/-- demoStr after replacing the name "Foo" by "LongerFoo": 6 bytes longer,
with every byte after the edited value shifted by 6. -/
def demoStrGrown : Buffer :=
  [4, 110, 97, 109, 101, 0x16, 0, 9, 76, 111, 110, 103, 101, 114, 70, 111, 111,
   0, 0, 0, 0,
   8, 103, 97, 109, 101, 109, 111, 100, 101, 0x16, 0, 4, 69, 65, 83, 89, 0]

/-! ### Pointwise buffer lemmas -/

lemma byteAt_nil (i : Nat) : byteAt [] i = 0 := by cases i <;> rfl

lemma byteAt_set (d : Buffer) (k b i : Nat) :
    byteAt (d.set k b) i = if k = i ∧ k < d.length then b else byteAt d i := by
  simp only [byteAt, List.getD_eq_getElem?_getD, List.getElem?_set]
  rcases eq_or_ne k i with rfl | hne
  · by_cases hk : k < d.length
    · simp [hk]
    · have hnone : d[k]? = none := List.getElem?_eq_none (by omega)
      simp [hk, hnone]
  · simp [hne]

lemma byteAt_append (l1 l2 : Buffer) (i : Nat) :
    byteAt (l1 ++ l2) i = if i < l1.length then byteAt l1 i else byteAt l2 (i - l1.length) := by
  simp only [byteAt, List.getD_eq_getElem?_getD, List.getElem?_append]
  split <;> rfl

lemma byteAt_drop (l : Buffer) (k i : Nat) : byteAt (l.drop k) i = byteAt l (k + i) := by
  simp only [byteAt, List.getD_eq_getElem?_getD, List.getElem?_drop]

lemma byteAt_take (l : Buffer) (k i : Nat) :
    byteAt (l.take k) i = if i < k then byteAt l i else 0 := by
  simp only [byteAt, List.getD_eq_getElem?_getD, List.getElem?_take]
  split <;> simp

lemma byteAt_replicate (n i : Nat) : byteAt (List.replicate n 0) i = 0 := by
  simp only [byteAt, List.getD_eq_getElem?_getD, List.getElem?_replicate]
  split <;> simp

lemma byteAt_cons_succ (b : Nat) (t : Buffer) (i : Nat) :
    byteAt (b :: t) (i + 1) = byteAt t i := rfl

lemma length_setManyAux (src : List Nat) :
    ∀ (d : Buffer) (off : Nat), (setManyAux d off src).length = d.length := by
  induction src with
  | nil => intro d off; rfl
  | cons b rest ih =>
    intro d off
    simp only [setManyAux, ih, List.length_set]

lemma byteAt_setManyAux (src : List Nat) :
    ∀ (d : Buffer) (off i : Nat),
      byteAt (setManyAux d off src) i =
        if off ≤ i ∧ i < off + src.length ∧ i < d.length then byteAt src (i - off)
        else byteAt d i := by
  induction src with
  | nil =>
    intro d off i
    simp only [setManyAux, List.length_nil, Nat.add_zero]
    rw [if_neg (show ¬(off ≤ i ∧ i < off ∧ i < d.length) by omega)]
  | cons b rest ih =>
    intro d off i
    simp only [setManyAux, ih, List.length_set, byteAt_set, List.length_cons]
    by_cases hA : off + 1 ≤ i ∧ i < off + 1 + rest.length ∧ i < d.length
    · rw [if_pos hA,
        if_pos (show off ≤ i ∧ i < off + (rest.length + 1) ∧ i < d.length by omega),
        show i - off = (i - (off + 1)) + 1 by omega, byteAt_cons_succ]
    · rw [if_neg hA]
      by_cases hD : off = i ∧ off < d.length
      · rw [if_pos hD,
          if_pos (show off ≤ i ∧ i < off + (rest.length + 1) ∧ i < d.length by omega),
          show i - off = 0 by omega]
        rfl
      · rw [if_neg hD,
          if_neg (show ¬(off ≤ i ∧ i < off + (rest.length + 1) ∧ i < d.length) by omega)]

/-- A slice of a buffer equals a list whose bytes agree pointwise. -/
lemma slice_eq_of_byteAt (d : Buffer) (src : List Nat) (k : Nat)
    (hfit : k + src.length ≤ d.length)
    (h : ∀ i, i < src.length → byteAt d (k + i) = byteAt src i) :
    (d.drop k).take src.length = src := by
  apply List.ext_getElem
  · simp; omega
  · intro i h1 h2
    have hb := h i h2
    simp only [byteAt, List.getD_eq_getElem?_getD] at hb
    have hd : d[k + i]? = some d[k + i] := List.getElem?_eq_getElem (by omega)
    have hs : src[i]? = some src[i] := List.getElem?_eq_getElem h2
    rw [hd, hs] at hb
    simp only [Option.getD_some] at hb
    simp [List.getElem_take, List.getElem_drop, hb]

/-! ### Scan characterization -/

lemma scanFirst_eq_none (p : Nat → Bool) (n : Nat) :
    scanFirst p n = none ↔ ∀ i, i < n → p i = false := by
  induction n with
  | zero => simp [scanFirst]
  | succ n ih =>
    constructor
    · intro h i hi
      unfold scanFirst at h
      cases hs : scanFirst p n with
      | some j => rw [hs] at h; exact absurd h (by simp)
      | none =>
        rw [hs] at h
        by_cases hp : p n
        · simp [hp] at h
        · rcases Nat.lt_succ_iff_lt_or_eq.mp hi with h' | rfl
          · exact ih.mp hs i h'
          · simpa using hp
    · intro h
      have hs : scanFirst p n = none := ih.mpr fun i hi => h i (Nat.lt_succ_of_lt hi)
      unfold scanFirst
      rw [hs]
      simp [h n (Nat.lt_succ_self n)]

lemma scanFirst_eq_some (p : Nat → Bool) (n i : Nat) :
    scanFirst p n = some i ↔ i < n ∧ p i = true ∧ ∀ j, j < i → p j = false := by
  induction n with
  | zero => simp [scanFirst]
  | succ n ih =>
    constructor
    · intro h
      unfold scanFirst at h
      cases hs : scanFirst p n with
      | some j =>
        rw [hs] at h
        obtain rfl : j = i := by simpa using h
        obtain ⟨h1, h2, h3⟩ := ih.mp hs
        exact ⟨Nat.lt_succ_of_lt h1, h2, h3⟩
      | none =>
        rw [hs] at h
        by_cases hp : p n
        · simp only [hp, if_true, Option.some.injEq] at h
          subst h
          exact ⟨Nat.lt_succ_self _, hp, fun j hj => (scanFirst_eq_none p n).mp hs j hj⟩
        · simp [hp] at h
    · rintro ⟨h1, h2, h3⟩
      rcases Nat.lt_succ_iff_lt_or_eq.mp h1 with h' | rfl
      · unfold scanFirst
        rw [ih.mpr ⟨h', h2, h3⟩]
      · have hs : scanFirst p i = none := (scanFirst_eq_none p i).mpr h3
        unfold scanFirst
        rw [hs]
        simp [h2]

lemma scanFirst_congr (p q : Nat → Bool) (n : Nat) (h : ∀ i, i < n → p i = q i) :
    scanFirst p n = scanFirst q n := by
  induction n with
  | zero => rfl
  | succ n ih =>
    unfold scanFirst
    rw [ih fun i hi => h i (Nat.lt_succ_of_lt hi), h n (Nat.lt_succ_self n)]

lemma allCongr {l : List Nat} {p q : Nat → Bool} (h : ∀ x ∈ l, p x = q x) :
    l.all p = l.all q := by
  induction l with
  | nil => rfl
  | cons a t ih =>
    simp only [List.all_cons]
    rw [h a (by simp), ih fun x hx => h x (by simp [hx])]

/-- The probe only reads the bytes `i, i+1, ..., i+pattern.length`. -/
lemma matchAtP_congr (d1 d2 : Buffer) (pat : List Nat) (i1 i2 : Nat)
    (h : ∀ t, t ≤ pat.length → byteAt d1 (i1 + t) = byteAt d2 (i2 + t)) :
    matchAtP d1 pat i1 = matchAtP d2 pat i2 := by
  unfold matchAtP matchAtG
  have h0 : byteAt d1 i1 = byteAt d2 i2 := by
    simpa using h 0 (Nat.zero_le _)
  rw [h0]
  congr 1
  apply allCongr
  intro j hj
  rw [List.mem_range] at hj
  rw [show i1 + 1 + j = i1 + (1 + j) by omega, show i2 + 1 + j = i2 + (1 + j) by omega,
    h (1 + j) (by omega)]

lemma findFieldP_eq_none (data pat : Buffer) :
    findFieldP data pat = none ↔
      ∀ i, i < data.length - pat.length - 2 → matchAtP data pat i = false := by
  unfold findFieldP findFieldG
  rw [Option.map_eq_none']
  exact scanFirst_eq_none _ _

/-- Everything findField guarantees about a returned descriptor: the name
offset is the earliest match, it leaves room for the tag, and the other
offsets and the tag are computed from it. -/
lemma findFieldP_eq_some_elim {data pat : Buffer} {f : FieldInfo}
    (h : findFieldP data pat = some f) :
    f.nameOffset + pat.length + 2 < data.length ∧
    matchAtP data pat f.nameOffset = true ∧
    (∀ j, j < f.nameOffset → matchAtP data pat j = false) ∧
    f.typeOffset = f.nameOffset + 1 + pat.length ∧
    f.type = byteAt data f.typeOffset ∧
    f.valueOffset = (if f.type = 0x11 ∨ f.type = 0x12 then f.typeOffset else f.typeOffset + 1) := by
  unfold findFieldP findFieldG at h
  cases hs : scanFirst (matchAtG (byteAt data) pat) (data.length - pat.length - 2) with
  | none => rw [hs] at h; exact absurd h (by simp)
  | some i =>
    rw [hs] at h
    obtain ⟨h1, h2, h3⟩ := (scanFirst_eq_some _ _ _).mp hs
    simp only [Option.map_some'] at h
    cases h
    refine ⟨?_, h2, h3, rfl, rfl, rfl⟩
    show i + pat.length + 2 < data.length
    omega

lemma findFieldP_eq_some_intro (data pat : Buffer) (i : Nat)
    (hb : i + pat.length + 2 < data.length)
    (hm : matchAtP data pat i = true)
    (hfirst : ∀ j, j < i → matchAtP data pat j = false) :
    findFieldP data pat = some
      { nameOffset := i
        typeOffset := i + 1 + pat.length
        valueOffset :=
          if byteAt data (i + 1 + pat.length) = 0x11 ∨ byteAt data (i + 1 + pat.length) = 0x12
          then i + 1 + pat.length else i + 1 + pat.length + 1
        type := byteAt data (i + 1 + pat.length) } := by
  unfold findFieldP findFieldG
  rw [(scanFirst_eq_some (matchAtG (byteAt data) pat)
    (data.length - pat.length - 2) i).mpr ⟨by omega, hm, hfirst⟩]
  rfl

/-- Stability of the scan: a modification that keeps every byte up to the
end of the first match's name (and keeps the buffer long enough) leaves
the first match where it was; the descriptor is recomputed from the
possibly-changed tag byte. -/
lemma findField_stable (data res pat : Buffer) (f : FieldInfo)
    (hf : findFieldP data pat = some f)
    (hagree : ∀ j, j ≤ f.nameOffset + pat.length → byteAt res j = byteAt data j)
    (hbound : f.nameOffset + pat.length + 2 < res.length) :
    findFieldP res pat = some
      { nameOffset := f.nameOffset
        typeOffset := f.nameOffset + 1 + pat.length
        valueOffset :=
          if byteAt res (f.nameOffset + 1 + pat.length) = 0x11 ∨
              byteAt res (f.nameOffset + 1 + pat.length) = 0x12
          then f.nameOffset + 1 + pat.length else f.nameOffset + 1 + pat.length + 1
        type := byteAt res (f.nameOffset + 1 + pat.length) } := by
  obtain ⟨h1, h2, h3, h4, h5, h6⟩ := findFieldP_eq_some_elim hf
  apply findFieldP_eq_some_intro res pat f.nameOffset hbound
  · rw [matchAtP_congr res data pat f.nameOffset f.nameOffset
      fun t ht => hagree (f.nameOffset + t) (by omega)]
    exact h2
  · intro j hj
    rw [matchAtP_congr res data pat j j fun t ht => hagree (j + t) (by omega)]
    exact h3 j hj

/-- The whole scan only consults the accessor at indices below `len`. -/
lemma findFieldG_congr (len : Nat) (get get' : Nat → Nat) (pat : List Nat)
    (h : ∀ i, i < len → get i = get' i) :
    findFieldG len get pat = findFieldG len get' pat := by
  unfold findFieldG
  have hm : ∀ i, i < len - pat.length - 2 → matchAtG get pat i = matchAtG get' pat i := by
    intro i hi
    unfold matchAtG
    rw [h i (by omega)]
    congr 1
    apply allCongr
    intro j hj
    rw [List.mem_range] at hj
    rw [h (i + 1 + j) (by omega)]
  rw [scanFirst_congr _ _ _ hm]
  cases hs : scanFirst (matchAtG get' pat) (len - pat.length - 2) with
  | none => rfl
  | some i =>
    obtain ⟨h1, _, _⟩ := (scanFirst_eq_some _ _ _).mp hs
    simp only [Option.map_some']
    rw [h (i + 1 + pat.length) (by omega)]

/-! ### Byte arithmetic helpers -/

lemma and255 (c : Nat) : c &&& 255 = c % 256 := Nat.and_pow_two_sub_one_eq_mod c 8

lemma shr8 (c : Nat) : c >>> 8 = c / 256 := by
  rw [Nat.shiftRight_eq_div_pow]

lemma shr16 (c : Nat) : c >>> 16 = c / 65536 := by
  rw [Nat.shiftRight_eq_div_pow]

lemma shr24 (c : Nat) : c >>> 24 = c / 16777216 := by
  rw [Nat.shiftRight_eq_div_pow]

lemma byteAt_set_self (d : Buffer) (k b : Nat) (hk : k < d.length) :
    byteAt (d.set k b) k = b := by
  rw [byteAt_set, if_pos ⟨rfl, hk⟩]

lemma byteAt_set_other (d : Buffer) (k b i : Nat) (h : k ≠ i) :
    byteAt (d.set k b) i = byteAt d i := by
  rw [byteAt_set, if_neg (by tauto)]

lemma readU16_set2 (data : Buffer) (v b0 b1 : Nat) (hv : v + 1 < data.length) :
    readU16 ((data.set v b0).set (v + 1) b1) v = b0 * 256 + b1 := by
  have h1 : byteAt ((data.set v b0).set (v + 1) b1) v = b0 := by
    rw [byteAt_set_other _ _ _ _ (by omega), byteAt_set_self _ _ _ (by omega)]
  have h2 : byteAt ((data.set v b0).set (v + 1) b1) (v + 1) = b1 := by
    rw [byteAt_set_self]
    simp only [List.length_set]
    omega
  unfold readU16
  rw [h1, h2]

lemma clamp16_bytes (c : Nat) (hc : c < 65536) :
    (c >>> 8 &&& 255) * 256 + (c &&& 255) = c := by
  rw [shr8, and255, and255]
  omega

/-! ### Claim theorems -/

/-- Claim C4 (counterexample): the buffer `[1, 'x', 0x0e]` carries a
complete record for the one-byte field name "x" at offset 0 — the probe
there succeeds and its type tag occupies the last byte of the buffer —
yet findField returns NotFound, because the scan bound
`i < len - len(name) - 2` excludes the offset `len - len(name) - 2`
itself.  This refutes both the claimed inclusive scan range and the
claimed "tag at the last byte is still found". -/
theorem c4_counterexample :
    matchAtP [1, 120, 0x0e] (utf8EncodeUnits [120]) 0 = true ∧
    findField [1, 120, 0x0e] [120] = none := by decide

/-- Claim C4 (amended): findField scans exactly the byte offsets
`0 ≤ i < len(buffer) - len(name) - 2` (so a record whose type tag sits at
the very last byte of the buffer is NOT found); at each offset it
compares the 1-byte length prefix and the exact name bytes, returns the
descriptor of the earliest matching offset, and returns NotFound exactly
when no offset in that range matches. -/
theorem c4_amended (data : Buffer) (fieldName : JSString) :
    (findField data fieldName = none ↔
      ∀ i, i < data.length - (utf8EncodeUnits fieldName).length - 2 →
        matchAtP data (utf8EncodeUnits fieldName) i = false) ∧
    (∀ f, findField data fieldName = some f →
      f.nameOffset < data.length - (utf8EncodeUnits fieldName).length - 2 ∧
      matchAtP data (utf8EncodeUnits fieldName) f.nameOffset = true ∧
      (∀ j, j < f.nameOffset → matchAtP data (utf8EncodeUnits fieldName) j = false) ∧
      f.typeOffset = f.nameOffset + 1 + (utf8EncodeUnits fieldName).length ∧
      f.type = byteAt data f.typeOffset ∧
      f.valueOffset =
        (if f.type = 0x11 ∨ f.type = 0x12 then f.typeOffset else f.typeOffset + 1)) := by
  constructor
  · exact findFieldP_eq_none data (utf8EncodeUnits fieldName)
  · intro f hf
    obtain ⟨h1, h2, h3, h4, h5, h6⟩ := findFieldP_eq_some_elim hf
    exact ⟨by omega, h2, h3, h4, h5, h6⟩

/-- Claim C4 (witness for the amended theorem): on the concrete rank
buffer the amended characterization instantiates to the found
descriptor. -/
theorem c4_amended_witness :
    findField demoRank nameRank = some ⟨1, 10, 11, 0x0e⟩ ∧
    (1 : Nat) < demoRank.length - (utf8EncodeUnits nameRank).length - 2 ∧
    matchAtP demoRank (utf8EncodeUnits nameRank) 1 = true := by
  have h := (c4_amended demoRank nameRank).2 ⟨1, 10, 11, 0x0e⟩ (by decide)
  exact ⟨by decide, h.1, h.2.1⟩

/-- Claim C10: the scan of findField consults no byte outside the
buffer: any byte accessor that agrees with the buffer on the indices
`0 ≤ i < len` produces the identical result (first conjunct), and on a
buffer with `len ≤ len(name) + 2` the scan loop runs zero times and
findField returns NotFound (second conjunct). -/
theorem c10_findField_reads_inside (data : Buffer) (pat : List Nat) (get : Nat → Nat)
    (fieldName : JSString)
    (hagree : ∀ i, i < data.length → get i = byteAt data i)
    (hshort : data.length ≤ (utf8EncodeUnits fieldName).length + 2) :
    findFieldP data pat = findFieldG data.length get pat ∧
    findField data fieldName = none := by
  constructor
  · exact (findFieldG_congr data.length get (byteAt data) pat hagree).symm
  · unfold findField findFieldP findFieldG
    rw [show data.length - (utf8EncodeUnits fieldName).length - 2 = 0 by omega]
    rfl

/-- Claim C10 (witness): an accessor returning garbage outside the
4-byte buffer `[1, 120, 14, 0]` gives the same scan result, and the
2-byte buffer `[1, 120]` is too short for the name "uber" and yields
NotFound. -/
theorem c10_witness :
    (∀ i, i < ([1, 120, 14, 0] : Buffer).length →
      (fun j => if j < 4 then byteAt [1, 120, 14, 0] j else 99) i = byteAt [1, 120, 14, 0] i) ∧
    ([1, 120] : Buffer).length ≤ (utf8EncodeUnits nameUber).length + 2 ∧
    findFieldP [1, 120, 14, 0] [120] =
      findFieldG ([1, 120, 14, 0] : Buffer).length
        (fun j => if j < 4 then byteAt [1, 120, 14, 0] j else 99) [120] ∧
    findField [1, 120] nameUber = none := by
  have h := c10_findField_reads_inside [1, 120, 14, 0]
    [120] (fun j => if j < 4 then byteAt [1, 120, 14, 0] j else 99) nameUber
    (by decide) (by decide)
  have h' := c10_findField_reads_inside [1, 120]
    [120] (fun j => if j < 4 then byteAt [1, 120, 14, 0] j else 99) nameUber
    (by decide) (by decide)
  exact ⟨by decide, by decide, h.1, h'.2⟩

/-- Claim C7: writing 32768 to a rank field tagged 0x0e with the
configured cap MAX_RANK = 64 stores the clamped value 64, writing -5
stores 0, and in general writeRank stores exactly the clamp of its input
into [0, MAX_RANK] — for the 0x0e (int16) tag bound here and likewise
for the 0x0f (int8) tag. -/
theorem c7_writeRank_clamps (data : Buffer) (fieldName : JSString) (f : FieldInfo) (v : Int)
    (hf : findField data fieldName = some f)
    (ht : f.type = 0x0e)
    (hroom : f.valueOffset + 2 ≤ data.length) :
    readRank (writeRank data (some f) 32768) (some f) = some 64 ∧
    readRank (writeRank data (some f) (-5)) (some f) = some 0 ∧
    readRank (writeRank data (some f) v) (some f) =
      some (max 0 (min (MAX_RANK : Int) v)).toNat ∧
    (∀ (data' : Buffer) (g : FieldInfo), findField data' fieldName = some g →
      g.type = 0x0f → g.valueOffset + 1 ≤ data'.length →
      readRank (writeRank data' (some g) v) (some g) =
        some (max 0 (min (MAX_RANK : Int) v)).toNat) := by
  have main : ∀ (w : Int), readRank (writeRank data (some f) w) (some f) =
      some (max 0 (min (MAX_RANK : Int) w)).toNat := by
    intro w
    set c : Nat := (max 0 (min (MAX_RANK : Int) w)).toNat with hc
    have hc64 : c ≤ 64 := by
      simp only [hc, MAX_RANK]
      omega
    simp only [writeRank, readRank, ht]
    norm_num
    rw [readU16_set2 data f.valueOffset _ _ (by omega)]
    rw [clamp16_bytes c (by omega)]
  refine ⟨?_, ?_, main v, ?_⟩
  · rw [main 32768]; rfl
  · rw [main (-5)]; rfl
  · intro data' g hg htg hroomg
    set c : Nat := (max 0 (min (MAX_RANK : Int) v)).toNat with hc
    have hc64 : c ≤ 64 := by
      simp only [hc, MAX_RANK]
      omega
    simp only [writeRank, readRank, htg]
    norm_num
    rw [byteAt_set_self _ _ _ (by omega), and255]
    omega

/-- Claim C7 (witness): on the concrete rank buffer, writing 32768 and
then reading back yields 64. -/
theorem c7_witness :
    findField demoRank nameRank = some ⟨1, 10, 11, 0x0e⟩ ∧
    readRank (writeRank demoRank (some ⟨1, 10, 11, 0x0e⟩) 32768) (some ⟨1, 10, 11, 0x0e⟩) =
      some 64 := by
  have h := c7_writeRank_clamps demoRank nameRank ⟨1, 10, 11, 0x0e⟩ 7
    (by decide) (by decide) (by decide)
  exact ⟨by decide, h.1⟩

/-- Claim C8: for a located boolean (uber) field, writeUber with value v
changes only the tag byte at typeOffset (the buffer keeps its length and
every other byte), re-scanning finds the same offsets with the new tag,
and readUber on the refreshed descriptor (as CityManager.toggleUber
refreshes it) returns exactly v. -/
theorem c8_uber_toggle (data : Buffer) (fieldName : JSString) (f : FieldInfo) (v : Bool)
    (hf : findField data fieldName = some f)
    (ht : f.type = 0x11 ∨ f.type = 0x12) :
    (writeUber data (some f) v).length = data.length ∧
    (∀ i, i ≠ f.typeOffset → byteAt (writeUber data (some f) v) i = byteAt data i) ∧
    findField (writeUber data (some f) v) fieldName =
      some ⟨f.nameOffset, f.typeOffset, f.typeOffset, if v then 0x11 else 0x12⟩ ∧
    readUber (writeUber data (some f) v)
      (findField (writeUber data (some f) v) fieldName) = some v := by
  obtain ⟨h1, h2, h3, h4, h5, h6⟩ := findFieldP_eq_some_elim hf
  set pat := utf8EncodeUnits fieldName with hpat
  set res := writeUber data (some f) v with hres
  have hresdef : res = data.set f.typeOffset (if v then 0x11 else 0x12) := rfl
  have hlen : res.length = data.length := by
    rw [hresdef, List.length_set]
  have hother : ∀ i, i ≠ f.typeOffset → byteAt res i = byteAt data i := by
    intro i hi
    rw [hresdef, byteAt_set_other _ _ _ _ (by omega)]
  have htagv : byteAt res f.typeOffset = if v then 0x11 else 0x12 := by
    rw [hresdef, byteAt_set_self _ _ _ (by omega)]
  have hagree : ∀ j, j ≤ f.nameOffset + pat.length → byteAt res j = byteAt data j := by
    intro j hj
    exact hother j (by omega)
  have hfind : findFieldP res pat = some
      { nameOffset := f.nameOffset
        typeOffset := f.nameOffset + 1 + pat.length
        valueOffset :=
          if byteAt res (f.nameOffset + 1 + pat.length) = 0x11 ∨
              byteAt res (f.nameOffset + 1 + pat.length) = 0x12
          then f.nameOffset + 1 + pat.length else f.nameOffset + 1 + pat.length + 1
        type := byteAt res (f.nameOffset + 1 + pat.length) } :=
    findField_stable data res pat f hf hagree (by omega)
  rw [← h4] at hfind
  rw [htagv] at hfind
  have hcond : ((if v then 0x11 else 0x12) = 0x11 ∨ (if v then 0x11 else 0x12) = 0x12) := by
    cases v <;> simp
  rw [if_pos hcond] at hfind
  refine ⟨hlen, hother, hfind, ?_⟩
  rw [show findField res fieldName = findFieldP res pat from rfl, hfind]
  unfold readUber
  cases v <;> simp

/-- Claim C8 (witness): toggling the concrete TRUE uber field to FALSE
leaves the length at 7, and reading the refreshed descriptor gives
FALSE. -/
theorem c8_witness :
    findField demoUber nameUber = some ⟨0, 5, 5, 0x11⟩ ∧
    (writeUber demoUber (some ⟨0, 5, 5, 0x11⟩) false).length = demoUber.length ∧
    readUber (writeUber demoUber (some ⟨0, 5, 5, 0x11⟩) false)
      (findField (writeUber demoUber (some ⟨0, 5, 5, 0x11⟩) false) nameUber) = some false := by
  have h := c8_uber_toggle demoUber nameUber ⟨0, 5, 5, 0x11⟩ false
    (by decide) (by decide)
  exact ⟨by decide, h.1, h.2.2.2⟩

/-! ### String write machinery -/

lemma byteAt_oob (d : Buffer) (i : Nat) (h : d.length ≤ i) : byteAt d i = 0 := by
  unfold byteAt
  rw [List.getD_eq_getElem?_getD, List.getElem?_eq_none (by omega)]
  rfl

lemma utf8EncodeOne_ascii (u : Nat) (h : u < 0x80) : utf8EncodeOne u = [u] := by
  unfold utf8EncodeOne
  rw [if_pos h]

lemma utf8EncodeUnits_ascii (s : JSString) (h : ∀ u ∈ s, u < 0x80) :
    utf8EncodeUnits s = s := by
  induction s with
  | nil => rfl
  | cons u rest ih =>
    cases rest with
    | nil =>
      show utf8EncodeOne u = [u]
      exact utf8EncodeOne_ascii u (h u (by simp))
    | cons w rest2 =>
      show (if 0xD800 ≤ u ∧ u < 0xDC00 ∧ 0xDC00 ≤ w ∧ w < 0xE000 then _ else
        utf8EncodeOne u ++ utf8EncodeUnits (w :: rest2)) = u :: w :: rest2
      rw [if_neg (by have := h u (by simp); omega)]
      rw [utf8EncodeOne_ascii u (h u (by simp)),
        ih fun x hx => h x (by simp [hx])]
      rfl

lemma utf8DecodeAux_ascii : ∀ (fuel : Nat) (l : List Nat), l.length ≤ fuel →
    (∀ b ∈ l, b < 0x80) → utf8DecodeAux fuel l = l := by
  intro fuel
  induction fuel with
  | zero =>
    intro l hl _
    cases l with
    | nil => rfl
    | cons b rest => simp at hl
  | succ fuel ih =>
    intro l hl h
    cases l with
    | nil => rfl
    | cons b rest =>
      show utf8DecodeAux (fuel + 1) (b :: rest) = b :: rest
      rw [utf8DecodeAux.eq_def]
      dsimp only
      rw [if_pos (h b (by simp)),
        ih rest (by simp only [List.length_cons] at hl; omega)
          fun x hx => h x (by simp [hx])]

lemma utf8Decode_ascii (l : List Nat) (h : ∀ b ∈ l, b < 0x80) :
    utf8Decode l = l := by
  unfold utf8Decode
  exact utf8DecodeAux_ascii l.length l le_rfl h

lemma setMany_pos (d : Buffer) (off : Nat) (src : List Nat) (h : off + src.length ≤ d.length) :
    setMany d off src = some (setManyAux d off src) := by
  unfold setMany
  rw [if_pos h]

/-- Zeta-reduced form of rebuildString, for rewriting. -/
lemma rebuildString_def (data : Buffer) (v curLen newLen : Nat) (newBytes : List Nat) :
    rebuildString data v curLen newLen newBytes =
      if data.length + newLen < curLen then none
      else
        (setMany (List.replicate (data.length + newLen - curLen) 0) 0 (data.take v)).bind
          fun d1 =>
            (setMany ((d1.set v (newLen >>> 8 &&& 255)).set (v + 1) (newLen &&& 255))
              (v + 2) newBytes).bind fun d3 =>
              setMany d3 (v + 2 + newLen) (data.drop (v + 2 + curLen)) := rfl

/-- What the rebuild branch of a string write produces, byte by byte:
the prefix is kept, the 2-byte length and new bytes are written, and the
bytes after the old value follow, shifted. -/
lemma rebuildString_spec (data : Buffer) (v curLen newLen : Nat) (newBytes : List Nat)
    (hwin : v + 2 + curLen ≤ data.length) (hblen : newBytes.length = newLen) :
    ∃ res : Buffer, rebuildString data v curLen newLen newBytes = some res ∧
      res.length + curLen = data.length + newLen ∧
      (∀ i, i < v → byteAt res i = byteAt data i) ∧
      byteAt res v = newLen >>> 8 &&& 255 ∧
      byteAt res (v + 1) = newLen &&& 255 ∧
      (∀ i, i < newLen → byteAt res (v + 2 + i) = byteAt newBytes i) ∧
      (∀ t, byteAt res (v + 2 + newLen + t) = byteAt data (v + 2 + curLen + t)) := by
  have hv : v ≤ data.length := by omega
  set size := data.length + newLen - curLen with hsize
  have hsz : size = data.length - curLen + newLen := by omega
  have hszv : v + 2 + newLen ≤ size := by omega
  set before := data.take v with hbefore
  set after := data.drop (v + 2 + curLen) with hafter
  have hbl : before.length = v := by
    rw [hbefore, List.length_take]
    omega
  have hal : after.length = data.length - (v + 2 + curLen) := by
    rw [hafter, List.length_drop]
  set d1 := setManyAux (List.replicate size 0) 0 before with hd1
  have hd1len : d1.length = size := by
    rw [hd1, length_setManyAux, List.length_replicate]
  set hi := newLen >>> 8 &&& 255 with hhi
  set lo := newLen &&& 255 with hlo
  set d2 := (d1.set v hi).set (v + 1) lo with hd2
  have hd2len : d2.length = size := by
    rw [hd2, List.length_set, List.length_set, hd1len]
  set d3 := setManyAux d2 (v + 2) newBytes with hd3
  have hd3len : d3.length = size := by rw [hd3, length_setManyAux, hd2len]
  set res := setManyAux d3 (v + 2 + newLen) after with hresd
  have hreslen : res.length = size := by rw [hresd, length_setManyAux, hd3len]
  have hrun : rebuildString data v curLen newLen newBytes = some res := by
    rw [rebuildString_def, if_neg (show ¬ data.length + newLen < curLen by omega)]
    rw [setMany_pos _ _ _ (show 0 + (data.take v).length ≤ (List.replicate
      (data.length + newLen - curLen) 0 : Buffer).length by
        rw [List.length_replicate, List.length_take]; omega)]
    rw [Option.some_bind]
    rw [setMany_pos _ _ _ (show v + 2 + newBytes.length ≤ (((setManyAux (List.replicate
      (data.length + newLen - curLen) 0) 0 (data.take v)).set v (newLen >>> 8 &&& 255)).set
      (v + 1) (newLen &&& 255) : Buffer).length by
        simp only [List.length_set, length_setManyAux, List.length_replicate]; omega)]
    rw [Option.some_bind]
    rw [setMany_pos _ _ _ (show v + 2 + newLen + (data.drop (v + 2 + curLen)).length ≤
      (setManyAux (((setManyAux (List.replicate (data.length + newLen - curLen) 0) 0
        (data.take v)).set v (newLen >>> 8 &&& 255)).set (v + 1) (newLen &&& 255))
        (v + 2) newBytes : Buffer).length by
        simp only [length_setManyAux, List.length_set, List.length_replicate, List.length_drop]
        omega)]
  refine ⟨res, hrun, by omega, ?_, ?_, ?_, ?_, ?_⟩
  · -- prefix bytes unchanged
    intro i hi
    rw [hresd, byteAt_setManyAux, if_neg (by omega),
      hd3, byteAt_setManyAux, if_neg (by omega),
      hd2, byteAt_set_other _ _ _ _ (by omega), byteAt_set_other _ _ _ _ (by omega),
      hd1, byteAt_setManyAux]
    rw [if_pos (by rw [hbl, List.length_replicate]; omega : 0 ≤ i ∧ i < 0 + before.length ∧
      i < (List.replicate size 0 : Buffer).length)]
    rw [hbefore, Nat.sub_zero, byteAt_take, if_pos hi]
  · -- high length byte
    rw [hresd, byteAt_setManyAux, if_neg (by omega),
      hd3, byteAt_setManyAux, if_neg (by omega),
      hd2, byteAt_set_other _ _ _ _ (by omega),
      byteAt_set_self _ _ _ (by rw [hd1len]; omega)]
  · -- low length byte
    rw [hresd, byteAt_setManyAux, if_neg (by omega),
      hd3, byteAt_setManyAux, if_neg (by omega),
      hd2, byteAt_set_self]
    simp only [List.length_set]
    rw [hd1len]
    omega
  · -- the new string bytes
    intro i hi
    rw [hresd, byteAt_setManyAux, if_neg (by omega),
      hd3, byteAt_setManyAux,
      if_pos (by rw [hblen, hd2len]; omega : v + 2 ≤ v + 2 + i ∧
        v + 2 + i < v + 2 + newBytes.length ∧ v + 2 + i < d2.length)]
    congr 1
    omega
  · -- the shifted tail
    intro t
    by_cases htl : t < after.length
    · rw [hresd, byteAt_setManyAux,
        if_pos (by rw [hd3len]; omega : v + 2 + newLen ≤ v + 2 + newLen + t ∧
          v + 2 + newLen + t < v + 2 + newLen + after.length ∧ v + 2 + newLen + t < d3.length),
        show v + 2 + newLen + t - (v + 2 + newLen) = t by omega,
        hafter, byteAt_drop]
    · rw [hresd, byteAt_setManyAux, if_neg (by omega),
        hd3, byteAt_setManyAux, if_neg (by rw [hd2len]; omega),
        hd2, byteAt_set_other _ _ _ _ (by omega), byteAt_set_other _ _ _ _ (by omega),
        hd1, byteAt_setManyAux, if_neg (by rw [hbl]; omega),
        byteAt_replicate, byteAt_oob data _ (by omega)]

/-- Zeta-reduced form of replaceStringValue, for rewriting. -/
lemma replaceStringValue_def (data : Buffer) (v : Nat) (s : JSString) :
    replaceStringValue data v s =
      if s.length = readU16 data v then
        some (setManyAux data (v + 2) ((utf8EncodeUnits s).take s.length))
      else rebuildString data v (readU16 data v) s.length (utf8EncodeUnits s) := rfl

/-- What both string-write branches produce, byte by byte. -/
lemma replaceStringValue_spec (data : Buffer) (v : Nat) (s : JSString)
    (hwin : v + 2 + readU16 data v ≤ data.length)
    (hblen : (utf8EncodeUnits s).length = s.length)
    (hlen : s.length < 65536) :
    ∃ res, replaceStringValue data v s = some res ∧
      res.length + readU16 data v = data.length + s.length ∧
      (∀ i, i < v → byteAt res i = byteAt data i) ∧
      readU16 res v = s.length ∧
      (∀ i, i < s.length → byteAt res (v + 2 + i) = byteAt (utf8EncodeUnits s) i) ∧
      (∀ t, byteAt res (v + 2 + s.length + t) = byteAt data (v + 2 + readU16 data v + t)) := by
  by_cases he : s.length = readU16 data v
  · set res := setManyAux data (v + 2) ((utf8EncodeUnits s).take s.length) with hres
    have htk : ((utf8EncodeUnits s).take s.length).length = s.length := by
      rw [List.length_take, hblen, Nat.min_self]
    have hrl : res.length = data.length := by rw [hres, length_setManyAux]
    refine ⟨res, ?_, by omega, ?_, ?_, ?_, ?_⟩
    · rw [replaceStringValue_def, if_pos he]
    · intro i hi
      rw [hres, byteAt_setManyAux, if_neg (by omega)]
    · have hv0 : byteAt res v = byteAt data v := by
        rw [hres, byteAt_setManyAux, if_neg (by omega)]
      have hv1 : byteAt res (v + 1) = byteAt data (v + 1) := by
        rw [hres, byteAt_setManyAux, if_neg (by omega)]
      unfold readU16
      unfold readU16 at he
      rw [hv0, hv1]
      omega
    · intro i hi
      rw [hres, byteAt_setManyAux,
        if_pos (by rw [htk]; omega : v + 2 ≤ v + 2 + i ∧ v + 2 + i < v + 2 +
          ((utf8EncodeUnits s).take s.length).length ∧ v + 2 + i < data.length),
        show v + 2 + i - (v + 2) = i by omega, byteAt_take, if_pos hi]
    · intro t
      rw [hres, byteAt_setManyAux, if_neg (by rw [htk]; omega), ← he]
  · obtain ⟨res, hrun, hl, hp, hhiB, hloB, hmid, htail⟩ :=
      rebuildString_spec data v (readU16 data v) s.length (utf8EncodeUnits s) hwin hblen
    refine ⟨res, ?_, hl, hp, ?_, hmid, htail⟩
    · rw [replaceStringValue_def, if_neg he, hrun]
    · unfold readU16
      rw [hhiB, hloB]
      exact clamp16_bytes s.length hlen

/-- A successful string replace re-scans to the same descriptor and reads
back the UTF-8 decode of the encoded new text; bytes before the value
offset are untouched and bytes after the old value are shifted as a
block. -/
lemma stringWrite_spec (data : Buffer) (fieldName : JSString) (f : FieldInfo) (s : JSString)
    (hf : findField data fieldName = some f)
    (ht : f.type = 0x16)
    (hwin : f.valueOffset + 2 + readU16 data f.valueOffset ≤ data.length)
    (hblen : (utf8EncodeUnits s).length = s.length)
    (hlen : s.length < 65536) :
    ∃ res, replaceStringValue data f.valueOffset s = some res ∧
      res.length + readU16 data f.valueOffset = data.length + s.length ∧
      (∀ i, i < f.valueOffset → byteAt res i = byteAt data i) ∧
      (∀ t, byteAt res (f.valueOffset + 2 + s.length + t) =
        byteAt data (f.valueOffset + 2 + readU16 data f.valueOffset + t)) ∧
      findField res fieldName = some f ∧
      readU16 res f.valueOffset = s.length ∧
      readName res (some f) = some (utf8Decode (utf8EncodeUnits s)) ∧
      readGamemode res (some f) = some (utf8Decode (utf8EncodeUnits s)) := by
  obtain ⟨h1, h2, h3, h4, h5, h6⟩ := findFieldP_eq_some_elim hf
  have hvo : f.valueOffset = f.typeOffset + 1 := by
    rw [h6, if_neg (by rw [ht]; omega)]
  obtain ⟨res, hrun, hl, hp, hu16, hmid, htail⟩ :=
    replaceStringValue_spec data f.valueOffset s hwin hblen hlen
  set pat := utf8EncodeUnits fieldName
  have hreslen : f.valueOffset + 2 + s.length ≤ res.length := by omega
  have hfeq : f = (⟨f.nameOffset, f.nameOffset + 1 + pat.length,
      f.nameOffset + 1 + pat.length + 1, 0x16⟩ : FieldInfo) := by
    rw [← h4, ← hvo, ← ht]
  have hfind : findField res fieldName = some f := by
    have hstable := findField_stable data res pat f hf
      (fun j hj => hp j (by omega)) (by omega)
    have htb : byteAt res (f.nameOffset + 1 + pat.length) = 0x16 := by
      rw [show f.nameOffset + 1 + pat.length = f.typeOffset from h4.symm,
        hp f.typeOffset (by omega), ← h5, ht]
    rw [htb] at hstable
    rw [if_neg (show ¬((0x16 : Nat) = 0x11 ∨ (0x16 : Nat) = 0x12) by omega)] at hstable
    rw [show findField res fieldName = findFieldP res pat from rfl, hstable, ← hfeq]
  have hslice : (res.drop (f.valueOffset + 2)).take (utf8EncodeUnits s).length =
      utf8EncodeUnits s := by
    apply slice_eq_of_byteAt res (utf8EncodeUnits s) (f.valueOffset + 2) (by omega)
    intro i hi
    exact hmid i (by omega)
  have hread : readStringField res f = utf8Decode (utf8EncodeUnits s) := by
    show utf8Decode ((res.drop (f.valueOffset + 2)).take (readU16 res f.valueOffset)) =
      utf8Decode (utf8EncodeUnits s)
    rw [hu16, ← hblen, hslice]
  refine ⟨res, hrun, hl, hp, htail, hfind, hu16, ?_, ?_⟩
  · show (if f.type = 0x16 then some (readStringField res f) else none) =
      some (utf8Decode (utf8EncodeUnits s))
    rw [if_pos ht, hread]
  · show (if f.type = 0x16 then some (readStringField res f) else none) =
      some (utf8Decode (utf8EncodeUnits s))
    rw [if_pos ht, hread]

/-- Stability with the type byte also preserved: the re-scan returns the
very same descriptor. -/
lemma findField_stable_exact (data res : Buffer) (pat : List Nat) (f : FieldInfo)
    (hf : findFieldP data pat = some f)
    (hagree : ∀ j, j ≤ f.nameOffset + pat.length + 1 → byteAt res j = byteAt data j)
    (hbound : f.nameOffset + pat.length + 2 < res.length) :
    findFieldP res pat = some f := by
  obtain ⟨h1, h2, h3, h4, h5, h6⟩ := findFieldP_eq_some_elim hf
  have hstable := findField_stable data res pat f hf (fun j hj => hagree j (by omega)) hbound
  have htb : byteAt res (f.nameOffset + 1 + pat.length) = f.type := by
    rw [hagree (f.nameOffset + 1 + pat.length) (by omega), ← h4, ← h5]
  rw [hstable, htb]
  have hfeq : f = (⟨f.nameOffset, f.nameOffset + 1 + pat.length,
      if f.type = 0x11 ∨ f.type = 0x12 then f.nameOffset + 1 + pat.length
      else f.nameOffset + 1 + pat.length + 1, f.type⟩ : FieldInfo) := by
    conv_lhs => rw [show f = (⟨f.nameOffset, f.typeOffset, f.valueOffset, f.type⟩ : FieldInfo)
      from rfl]
    rw [h6, h4]
  rw [← hfeq]

/-- Re-scanning a field that lies wholly after a replaced window
`[v, v+2+curLen)` finds it at its position shifted by the window's size
change, with the same tag, provided no new match arises in or across the
replaced window (hseam). -/
lemma findField_shifted (data res : Buffer) (pat : List Nat) (g : FieldInfo)
    (v curLen newLen : Nat)
    (hg : findFieldP data pat = some g)
    (hpos : v + 2 + curLen ≤ g.nameOffset)
    (hlen : res.length + curLen = data.length + newLen)
    (hpre : ∀ i, i < v → byteAt res i = byteAt data i)
    (htail : ∀ t, byteAt res (v + 2 + newLen + t) = byteAt data (v + 2 + curLen + t))
    (hseam : ∀ i, v ≤ i + pat.length + 1 → i < v + 2 + newLen →
      matchAtP res pat i = false) :
    findFieldP res pat = some
      ⟨v + 2 + newLen + (g.nameOffset - (v + 2 + curLen)),
       v + 2 + newLen + (g.nameOffset - (v + 2 + curLen)) + 1 + pat.length,
       if g.type = 0x11 ∨ g.type = 0x12
         then v + 2 + newLen + (g.nameOffset - (v + 2 + curLen)) + 1 + pat.length
         else v + 2 + newLen + (g.nameOffset - (v + 2 + curLen)) + 1 + pat.length + 1,
       g.type⟩ := by
  obtain ⟨hg1, hg2, hg3, hg4, hg5, hg6⟩ := findFieldP_eq_some_elim hg
  set t0 := g.nameOffset - (v + 2 + curLen) with ht0
  have hgn : g.nameOffset = v + 2 + curLen + t0 := by omega
  set n' := v + 2 + newLen + t0 with hn'
  have htrans : ∀ t, byteAt res (n' + t) = byteAt data (g.nameOffset + t) := by
    intro t
    rw [hgn, hn', show v + 2 + newLen + t0 + t = v + 2 + newLen + (t0 + t) by omega,
      show v + 2 + curLen + t0 + t = v + 2 + curLen + (t0 + t) by omega]
    exact htail (t0 + t)
  have hmatch : matchAtP res pat n' = true := by
    rw [matchAtP_congr res data pat n' g.nameOffset fun t _ => htrans t]
    exact hg2
  have hbound' : n' + pat.length + 2 < res.length := by omega
  have hfirst' : ∀ j, j < n' → matchAtP res pat j = false := by
    intro j hj
    by_cases hc1 : j + pat.length + 1 ≤ v
    · rw [matchAtP_congr res data pat j j fun t ht => hpre (j + t) (by omega)]
      exact hg3 j (by omega)
    · by_cases hc2 : j < v + 2 + newLen
      · exact hseam j (by omega) hc2
      · set t1 := j - (v + 2 + newLen) with ht1
        have hj' : j = v + 2 + newLen + t1 := by omega
        rw [hj', matchAtP_congr res data pat (v + 2 + newLen + t1) (v + 2 + curLen + t1)
          fun t _ => by
            rw [show v + 2 + newLen + t1 + t = v + 2 + newLen + (t1 + t) by omega,
              show v + 2 + curLen + t1 + t = v + 2 + curLen + (t1 + t) by omega]
            exact htail (t1 + t)]
        exact hg3 (v + 2 + curLen + t1) (by omega)
  have hintro := findFieldP_eq_some_intro res pat n' hbound' hmatch hfirst'
  have htb : byteAt res (n' + 1 + pat.length) = g.type := by
    rw [show n' + 1 + pat.length = n' + (1 + pat.length) by omega, htrans,
      show g.nameOffset + (1 + pat.length) = g.typeOffset by omega, ← hg5]
  rw [hintro, htb]

lemma writeName_eq (data : Buffer) (f : FieldInfo) (s : JSString)
    (htf : f.type = 0x16) (hcap : s.length ≤ 255) :
    writeName data (some f) s = replaceStringValue data f.valueOffset s := by
  show (if f.type ≠ 0x16 then none else replaceStringValue data f.valueOffset
    (if s.length > 255 then s.take 255 else s)) = _
  rw [if_neg (by simp [htf]), if_neg (by omega)]

lemma writeGamemode_eq (data : Buffer) (f : FieldInfo) (g : JSString)
    (htf : f.type = 0x16) (hmem : g ∈ GAMEMODES) :
    writeGamemode data (some f) g = replaceStringValue data f.valueOffset g := by
  show (if f.type ≠ 0x16 then none
    else if g ∉ GAMEMODES then none else replaceStringValue data f.valueOffset g) = _
  rw [if_neg (by simp [htf]), if_neg (by simp [hmem])]

/-- Claim C2: a variable-length writeName that changes the value's byte
length by Δ = newLen - oldLen returns a buffer exactly Δ bytes longer;
re-scanning a second field that lies after the replaced value window
(and does not spuriously match in or across the window, hseam — the
format's assumed name uniqueness) reports all three offsets shifted by
exactly Δ with the tag unchanged, while the bytes and the full
descriptor of any field wholly before the edited value offset are
unchanged. -/
theorem c2_offset_shift (data res : Buffer) (fieldName otherName beforeName s : JSString)
    (f g h' : FieldInfo)
    (hf : findField data fieldName = some f) (htf : f.type = 0x16)
    (hwin : f.valueOffset + 2 + readU16 data f.valueOffset ≤ data.length)
    (hascii : ∀ u ∈ s, u < 0x80) (hcap : s.length ≤ 255)
    (hres : writeName data (some f) s = some res)
    (hg : findField data otherName = some g)
    (hpos : f.valueOffset + 2 + readU16 data f.valueOffset ≤ g.nameOffset)
    (hseam : ∀ i, i < f.valueOffset + 2 + s.length →
      f.valueOffset ≤ i + (utf8EncodeUnits otherName).length + 1 →
      matchAtP res (utf8EncodeUnits otherName) i = false)
    (hh : findField data beforeName = some h')
    (hhb : h'.typeOffset < f.valueOffset) :
    (res.length : Int) = (data.length : Int) +
      ((s.length : Int) - (readU16 data f.valueOffset : Int)) ∧
    (∀ i, i < f.valueOffset → byteAt res i = byteAt data i) ∧
    (∃ g', findField res otherName = some g' ∧
      (g'.nameOffset : Int) = (g.nameOffset : Int) +
        ((s.length : Int) - (readU16 data f.valueOffset : Int)) ∧
      (g'.typeOffset : Int) = (g.typeOffset : Int) +
        ((s.length : Int) - (readU16 data f.valueOffset : Int)) ∧
      (g'.valueOffset : Int) = (g.valueOffset : Int) +
        ((s.length : Int) - (readU16 data f.valueOffset : Int)) ∧
      g'.type = g.type) ∧
    findField res beforeName = some h' := by
  have hblen : (utf8EncodeUnits s).length = s.length := by
    rw [utf8EncodeUnits_ascii s hascii]
  have hlen65 : s.length < 65536 := by omega
  obtain ⟨resW, hrun, hl, hp, hu16, hmid, htail⟩ :=
    replaceStringValue_spec data f.valueOffset s hwin hblen hlen65
  rw [writeName_eq data f s htf hcap, hrun] at hres
  obtain rfl : resW = res := Option.some.inj hres
  set curLen := readU16 data f.valueOffset
  set v := f.valueOffset
  refine ⟨by omega, hp, ?_, ?_⟩
  · have hshift := findField_shifted data resW (utf8EncodeUnits otherName) g
      v curLen s.length hg hpos hl hp htail (fun i h1 h2 => hseam i h2 h1)
    obtain ⟨hg1, hg2, hg3, hg4, hg5, hg6⟩ := findFieldP_eq_some_elim hg
    refine ⟨_, hshift, ?_, ?_, ?_, ?_⟩
    · show ((v + 2 + s.length + (g.nameOffset - (v + 2 + curLen)) : Nat) : Int) = _
      omega
    · show ((v + 2 + s.length + (g.nameOffset - (v + 2 + curLen)) + 1 +
        (utf8EncodeUnits otherName).length : Nat) : Int) = _
      rw [hg4]
      omega
    · by_cases hb : g.type = 0x11 ∨ g.type = 0x12
      · show (((if g.type = 0x11 ∨ g.type = 0x12
            then v + 2 + s.length + (g.nameOffset - (v + 2 + curLen)) + 1 +
              (utf8EncodeUnits otherName).length
            else v + 2 + s.length + (g.nameOffset - (v + 2 + curLen)) + 1 +
              (utf8EncodeUnits otherName).length + 1) : Nat) : Int) = _
        rw [if_pos hb, hg6, if_pos hb, hg4]
        omega
      · show (((if g.type = 0x11 ∨ g.type = 0x12
            then v + 2 + s.length + (g.nameOffset - (v + 2 + curLen)) + 1 +
              (utf8EncodeUnits otherName).length
            else v + 2 + s.length + (g.nameOffset - (v + 2 + curLen)) + 1 +
              (utf8EncodeUnits otherName).length + 1) : Nat) : Int) = _
        rw [if_neg hb, hg6, if_neg hb, hg4]
        omega
    · rfl
  · obtain ⟨hh1, hh2, hh3, hh4, hh5, hh6⟩ := findFieldP_eq_some_elim hh
    exact findField_stable_exact data resW (utf8EncodeUnits beforeName) h' hh
      (fun j hj => hp j (by omega)) (by omega)

/-- Claim C2 (witness): growing "Foo" to "LongerFoo" in the concrete
buffer returns a buffer 6 bytes longer; the gamemode field re-scans at
offsets shifted by exactly 6 and the name field's own descriptor is
unchanged. -/
theorem c2_witness :
    writeName demoStr (some ⟨0, 5, 6, 0x16⟩) [76, 111, 110, 103, 101, 114, 70, 111, 111] =
      some demoStrGrown ∧
    (∃ g', findField demoStrGrown nameGamemode = some g' ∧
      (g'.nameOffset : Int) = 21 ∧ g'.type = 0x16) ∧
    findField demoStrGrown nameCity = some ⟨0, 5, 6, 0x16⟩ ∧
    (demoStrGrown.length : Int) = demoStr.length + 6 := by
  have h := c2_offset_shift demoStr demoStrGrown nameCity nameGamemode nameCity
    [76, 111, 110, 103, 101, 114, 70, 111, 111] ⟨0, 5, 6, 0x16⟩ ⟨15, 24, 25, 0x16⟩
    ⟨0, 5, 6, 0x16⟩ (by decide) (by decide) (by decide) (by decide) (by decide)
    (by decide) (by decide) (by decide) (by decide) (by decide) (by decide)
  obtain ⟨g', hg', hn, ht', hv, hty⟩ := h.2.2.1
  have hr : readU16 demoStr 6 = 3 := by decide
  refine ⟨by decide, ⟨g', hg', ?_, hty⟩, h.2.2.2, ?_⟩
  · rw [hn]
    show ((⟨15, 24, 25, 0x16⟩ : FieldInfo).nameOffset : Int) +
      ((([76, 111, 110, 103, 101, 114, 70, 111, 111] : JSString).length : Int) -
        ((readU16 demoStr (⟨0, 5, 6, 0x16⟩ : FieldInfo).valueOffset : Nat) : Int)) = 21
    rw [show readU16 demoStr (⟨0, 5, 6, 0x16⟩ : FieldInfo).valueOffset = 3 from hr]
    norm_num
  · have := h.1
    rw [show readU16 demoStr (⟨0, 5, 6, 0x16⟩ : FieldInfo).valueOffset = 3 from hr] at this
    rw [this]
    norm_num

/-- Claim C9: writeGamemode fails (returns null) for every string
outside the closed set GAMEMODES — in the source, the membership check
runs before any byte of the buffer is touched, so the buffer is left
unchanged — yet readGamemode decodes and returns whatever string value
is present in the buffer, recognized or not (here the concrete value
"WEIRD"). -/
theorem c9_gamemode_closed (data : Buffer) (field : Option FieldInfo) (s : JSString)
    (hs : s ∉ GAMEMODES) :
    writeGamemode data field s = none ∧
    readGamemode demoWeird (findField demoWeird nameGamemode) =
      some [87, 69, 73, 82, 68] ∧
    ([87, 69, 73, 82, 68] : JSString) ∉ GAMEMODES := by
  refine ⟨?_, by decide, by decide⟩
  cases field with
  | none => rfl
  | some f =>
    show (if f.type ≠ 0x16 then none
      else if s ∉ GAMEMODES then none
      else replaceStringValue data f.valueOffset s) = none
    by_cases htf : f.type = 0x16
    · rw [if_neg (by simp [htf]), if_pos hs]
    · rw [if_pos htf]

/-- Claim C9 (witness): writing the unrecognized value "WEIRD" is
rejected with null on the very buffer whose gamemode already reads back
as "WEIRD". -/
theorem c9_witness :
    ([87, 69, 73, 82, 68] : JSString) ∉ GAMEMODES ∧
    writeGamemode demoWeird (findField demoWeird nameGamemode)
      [87, 69, 73, 82, 68] = none := by
  have h := c9_gamemode_closed demoWeird (findField demoWeird nameGamemode)
    [87, 69, 73, 82, 68] (by decide)
  exact ⟨by decide, h.1⟩

/-- Claim C5 (counterexample): a numeric write aimed at a field whose
actual tag is 0x16 (string) silently performs no operation — the buffer
comes back byte-identical and no error of any kind is produced (the
operation's result type has no error channel at all); likewise the
low-level bounds-checked reader substitutes the default 0 for an
out-of-range read instead of returning an error. -/
theorem c5_counterexample :
    writeDsaSupplies demoStr (some ⟨0, 5, 6, 0x16⟩) 5 = demoStr ∧
    readInt32BE (some []) 0 = 0 ∧
    readInt16BE none 0 = 0 := by
  refine ⟨by decide, by decide, by decide⟩

/-- Claim C5 (amended): no codec path returns a FieldTypeMismatch error —
the error does not exist in the code.  A NUMERIC write applied to a field
with an incompatible tag silently performs no operation (the buffer is
returned unchanged, with no error value anywhere); the STRING writes
(writeName, writeGamemode) instead return null on a non-0x16 tag, which
their callers treat as failure; mismatched readers return null; and
BinaryUtils.readInt32BE / readInt16BE substitute the default 0 for any
out-of-bounds read. -/
theorem c5_amended (data : Buffer) (f : FieldInfo) (v : Int) (s : JSString)
    (off : Int) (d : Buffer) :
    (f.type ≠ 0x0e → writeDsaSupplies data (some f) v = data) ∧
    (f.type ≠ 0x0e → f.type ≠ 0x0f → writeRank data (some f) v = data) ∧
    (f.type ≠ 0x07 → f.type ≠ 0x08 → writeEstate data (some f) v = data) ∧
    (f.type ≠ 0x16 → writeName data (some f) s = none) ∧
    (f.type ≠ 0x16 → writeGamemode data (some f) s = none) ∧
    (f.type ≠ 0x16 → readGamemode data (some f) = none) ∧
    (f.type ≠ 0x16 → readName data (some f) = none) ∧
    (f.type ≠ 0x0e → f.type ≠ 0x0f → readRank data (some f) = none) ∧
    (off < 0 ∨ (d.length : Int) < off + 4 → readInt32BE (some d) off = 0) ∧
    (off < 0 ∨ (d.length : Int) < off + 2 → readInt16BE (some d) off = 0) := by
  refine ⟨?_, ?_, ?_, ?_, ?_, ?_, ?_, ?_, ?_, ?_⟩
  · intro h
    show (if f.type = 0x0e then _ else data) = data
    rw [if_neg h]
  · intro h1 h2
    show (if f.type = 0x0e then _ else if f.type = 0x0f then _ else data) = data
    rw [if_neg h1, if_neg h2]
  · intro h1 h2
    show (if f.type = 0x07 then _ else if f.type = 0x08 then _ else data) = data
    rw [if_neg h1, if_neg h2]
  · intro h
    show (if f.type ≠ 0x16 then none else _) = none
    rw [if_pos h]
  · intro h
    show (if f.type ≠ 0x16 then none else _) = none
    rw [if_pos h]
  · intro h
    show (if f.type = 0x16 then _ else none) = none
    rw [if_neg h]
  · intro h
    show (if f.type = 0x16 then _ else none) = none
    rw [if_neg h]
  · intro h1 h2
    show (if f.type = 0x0e then _ else if f.type = 0x0f then _ else none) = none
    rw [if_neg h1, if_neg h2]
  · intro h
    show (if off < 0 ∨ (d.length : Int) < off + 4 then 0 else _) = 0
    rw [if_pos h]
  · intro h
    show (if off < 0 ∨ (d.length : Int) < off + 2 then 0 else _) = 0
    rw [if_pos h]

/-- Claim C5 (witness for the amended theorem): the silent numeric no-op,
the null returned by each string write on a mismatched tag, and the 0
default, all at concrete inputs. -/
theorem c5_amended_witness :
    ((⟨0, 5, 6, 0x16⟩ : FieldInfo).type ≠ 0x0e) ∧
    writeDsaSupplies demoStr (some ⟨0, 5, 6, 0x16⟩) 5 = demoStr ∧
    ((⟨1, 10, 11, 0x0e⟩ : FieldInfo).type ≠ 0x16) ∧
    writeName demoRank (some ⟨1, 10, 11, 0x0e⟩) [65] = none ∧
    writeGamemode demoRank (some ⟨1, 10, 11, 0x0e⟩) [69, 65, 83, 89] = none ∧
    readInt32BE (some ([] : Buffer)) (-1) = 0 := by
  have h := c5_amended demoStr ⟨0, 5, 6, 0x16⟩ 5 [65] (-1) ([] : Buffer)
  have h2 := c5_amended demoRank ⟨1, 10, 11, 0x0e⟩ 5 [65] (-1) ([] : Buffer)
  have h3 := c5_amended demoRank ⟨1, 10, 11, 0x0e⟩ 5 [69, 65, 83, 89] (-1) ([] : Buffer)
  exact ⟨by decide, h.1 (by decide), by decide, h2.2.2.2.1 (by decide),
    h3.2.2.2.2.1 (by decide), h.2.2.2.2.2.2.2.2.1 (by norm_num)⟩

/-! ### Estate machinery: int32 and float64 -/

lemma readU32_set4 (data : Buffer) (v b0 b1 b2 b3 : Nat) (hv : v + 3 < data.length) :
    readU32 ((((data.set v b0).set (v + 1) b1).set (v + 2) b2).set (v + 3) b3) v =
      b0 * 2 ^ 24 + b1 * 2 ^ 16 + b2 * 2 ^ 8 + b3 := by
  have l1 : ((data.set v b0).set (v + 1) b1).length = data.length := by
    simp [List.length_set]
  have l2 : (((data.set v b0).set (v + 1) b1).set (v + 2) b2).length = data.length := by
    simp [List.length_set]
  have h0 : byteAt ((((data.set v b0).set (v + 1) b1).set (v + 2) b2).set (v + 3) b3) v
      = b0 := by
    rw [byteAt_set_other _ _ _ _ (by omega), byteAt_set_other _ _ _ _ (by omega),
      byteAt_set_other _ _ _ _ (by omega), byteAt_set_self _ _ _ (by omega)]
  have h1 : byteAt ((((data.set v b0).set (v + 1) b1).set (v + 2) b2).set (v + 3) b3) (v + 1)
      = b1 := by
    rw [byteAt_set_other _ _ _ _ (by omega), byteAt_set_other _ _ _ _ (by omega),
      byteAt_set_self]
    simp only [List.length_set]
    omega
  have h2 : byteAt ((((data.set v b0).set (v + 1) b1).set (v + 2) b2).set (v + 3) b3) (v + 2)
      = b2 := by
    rw [byteAt_set_other _ _ _ _ (by omega), byteAt_set_self]
    rw [l1]
    omega
  have h3 : byteAt ((((data.set v b0).set (v + 1) b1).set (v + 2) b2).set (v + 3) b3) (v + 3)
      = b3 := by
    rw [byteAt_set_self]
    rw [List.length_set, l1]
    omega
  unfold readU32
  rw [h0, h1, h2, h3]

lemma clamp32_bytes (c : Nat) (hc : c < 4294967296) :
    (c >>> 24 &&& 255) * 2 ^ 24 + (c >>> 16 &&& 255) * 2 ^ 16 +
      (c >>> 8 &&& 255) * 2 ^ 8 + (c &&& 255) = c := by
  rw [shr24, shr16, shr8, and255, and255, and255, and255]
  omega

/-- Write-then-read on an int32-tagged estate field stores exactly the
clamp of the value into [0, 2147483647]. -/
lemma estate8_write_read (data : Buffer) (f : FieldInfo) (v : Int)
    (ht : f.type = 0x08) (hroom : f.valueOffset + 4 ≤ data.length) :
    readEstate (writeEstate data (some f) v) (some f) =
      some ((max 0 (min 2147483647 v) : Int) : ℚ) := by
  set c : Nat := (max 0 (min 2147483647 v)).toNat with hc
  have hc31 : c < 2147483648 := by simp only [hc]; omega
  have hcv : (c : Int) = max 0 (min 2147483647 v) := by simp only [hc]; omega
  simp only [writeEstate, readEstate, ht]
  norm_num
  rw [readU32_set4 data f.valueOffset _ _ _ _ (by omega), clamp32_bytes c (by omega)]
  unfold toSigned32
  rw [if_pos (by norm_num; omega)]
  rw [hcv]
  push_cast
  rfl

lemma length_bytesOfNatBE (w : Nat) : ∀ n, (bytesOfNatBE w n).length = w := by
  induction w with
  | zero => intro n; rfl
  | succ w ih =>
    intro n
    show (bytesOfNatBE w (n / 256) ++ [n % 256]).length = w + 1
    rw [List.length_append, ih]
    rfl

lemma natOfBytesBE_bytesOfNatBE (w : Nat) : ∀ n, natOfBytesBE (bytesOfNatBE w n) = n % 256 ^ w := by
  induction w with
  | zero =>
    intro n
    show (0 : Nat) = n % 1
    rw [Nat.mod_one]
  | succ w ih =>
    intro n
    show ((bytesOfNatBE w (n / 256)) ++ [n % 256]).foldl (fun a b => a * 256 + b) 0 = _
    rw [List.foldl_append]
    show natOfBytesBE (bytesOfNatBE w (n / 256)) * 256 + n % 256 = n % 256 ^ (w + 1)
    rw [ih (n / 256)]
    have h1 : 256 ^ (w + 1) = 256 * 256 ^ w := by ring
    rw [h1, Nat.mod_mul]
    omega

lemma encodeF64_lt (v : Int) (h : v.natAbs ≤ 2 ^ 53) : encodeF64ofInt v < 2 ^ 64 := by
  by_cases hv0 : v = 0
  · subst hv0
    show (0 : Nat) < 2 ^ 64
    norm_num
  · have hbits : encodeF64ofInt v = (if v < 0 then 1 else 0) * 2 ^ 63 +
        (1023 + Nat.log2 v.natAbs) * 2 ^ 52 +
        (v.natAbs * 2 ^ 52 / 2 ^ Nat.log2 v.natAbs - 2 ^ 52) := by
      unfold encodeF64ofInt
      rw [if_neg hv0]
    set n := v.natAbs with hn
    have hn0 : n ≠ 0 := by simp [hn, Int.natAbs_eq_zero, hv0]
    set e := Nat.log2 n with he
    have hle : 2 ^ e ≤ n := Nat.log2_self_le hn0
    have hlt : n < 2 ^ (e + 1) := Nat.lt_log2_self
    have he53 : e ≤ 53 := by
      by_contra hgt
      push_neg at hgt
      have h2 : (2 : Nat) ^ 54 ≤ 2 ^ e := Nat.pow_le_pow_right (by norm_num) (by omega)
      have h3 : (2 : Nat) ^ 53 < 2 ^ 54 := by norm_num
      omega
    have hq2 : n * 2 ^ 52 / 2 ^ e < 2 ^ 53 := by
      rw [Nat.div_lt_iff_lt_mul (by positivity)]
      calc n * 2 ^ 52 < 2 ^ (e + 1) * 2 ^ 52 :=
            (Nat.mul_lt_mul_right (by positivity)).mpr hlt
        _ = 2 ^ 53 * 2 ^ e := by rw [← pow_add, ← pow_add]; ring_nf
    rw [hbits]
    have hs1 : (if v < 0 then (1 : Nat) else 0) ≤ 1 := by split <;> omega
    have p53 : (2 : Nat) ^ 53 = 9007199254740992 := by norm_num
    have p52 : (2 : Nat) ^ 52 = 4503599627370496 := by norm_num
    have p63 : (2 : Nat) ^ 63 = 9223372036854775808 := by norm_num
    have p64 : (2 : Nat) ^ 64 = 18446744073709551616 := by norm_num
    rw [p52, p63, p64]
    rw [p53, p52] at hq2
    omega

lemma decodeF64_encodeF64 (v : Int) (h : v.natAbs ≤ 2 ^ 53) :
    decodeF64 (encodeF64ofInt v) = some ((v : ℚ)) := by
  by_cases hv0 : v = 0
  · subst hv0
    show decodeF64 0 = some ((0 : Int) : ℚ)
    unfold decodeF64
    norm_num
  · set n := v.natAbs with hn
    have hn0 : n ≠ 0 := by simp [hn, Int.natAbs_eq_zero, hv0]
    set e := Nat.log2 n with he
    have hle : 2 ^ e ≤ n := Nat.log2_self_le hn0
    have hlt : n < 2 ^ (e + 1) := Nat.lt_log2_self
    have he53 : e ≤ 53 := by
      by_contra hgt
      push_neg at hgt
      have h2 : (2 : Nat) ^ 54 ≤ 2 ^ e := Nat.pow_le_pow_right (by norm_num) (by omega)
      have h3 : (2 : Nat) ^ 53 < 2 ^ 54 := by norm_num
      omega
    set q := n * 2 ^ 52 / 2 ^ e with hq
    have hq1 : 2 ^ 52 ≤ q := by
      rw [hq, Nat.le_div_iff_mul_le (by positivity)]
      calc (2 : Nat) ^ 52 * 2 ^ e = 2 ^ e * 2 ^ 52 := by ring
        _ ≤ n * 2 ^ 52 := Nat.mul_le_mul_right _ hle
    have hq2 : q < 2 ^ 53 := by
      rw [hq, Nat.div_lt_iff_lt_mul (by positivity)]
      calc n * 2 ^ 52 < 2 ^ (e + 1) * 2 ^ 52 :=
            (Nat.mul_lt_mul_right (by positivity)).mpr hlt
        _ = 2 ^ 53 * 2 ^ e := by rw [← pow_add, ← pow_add]; ring_nf
    set m := q - 2 ^ 52 with hm
    set s : Nat := if v < 0 then 1 else 0 with hs
    have hs1 : s ≤ 1 := by rw [hs]; split <;> omega
    have hbits : encodeF64ofInt v = s * 2 ^ 63 + (1023 + e) * 2 ^ 52 + m := by
      unfold encodeF64ofInt
      rw [if_neg hv0]
    rw [hbits]
    have p53 : (2 : Nat) ^ 53 = 9007199254740992 := by norm_num
    have p52 : (2 : Nat) ^ 52 = 4503599627370496 := by norm_num
    have p63 : (2 : Nat) ^ 63 = 9223372036854775808 := by norm_num
    have p11 : (2 : Nat) ^ 11 = 2048 := by norm_num
    have hm52 : m < 2 ^ 52 := by omega
    have hE : (s * 2 ^ 63 + (1023 + e) * 2 ^ 52 + m) / 2 ^ 52 % 2 ^ 11 = 1023 + e := by
      rw [p52, p63, p11]
      rw [p52] at hm52
      omega
    have hS : (s * 2 ^ 63 + (1023 + e) * 2 ^ 52 + m) / 2 ^ 63 % 2 = s := by
      rw [p52, p63]
      rw [p52] at hm52
      omega
    have hM : (s * 2 ^ 63 + (1023 + e) * 2 ^ 52 + m) % 2 ^ 52 = m := by
      rw [p52, p63]
      rw [p52] at hm52
      omega
    unfold decodeF64
    rw [hE, hS, hM]
    rw [if_neg (show ¬(1023 + e = 2047) by omega)]
    rw [if_neg (show ¬(1023 + e = 0) by omega)]
    have hqm : 2 ^ 52 + m = q := by omega
    have hsign : ∀ mag : ℚ, mag = (n : ℚ) →
        (if s = 1 then (-1 : ℚ) else 1) * mag = (v : ℚ) := by
      intro mag hmag
      rw [hmag, hs]
      by_cases hneg : v < 0
      · rw [if_pos hneg]
        have hni : (n : Int) = -v := by omega
        rw [if_pos rfl]
        have : (n : ℚ) = -(v : ℚ) := by exact_mod_cast congrArg (fun z : Int => (z : ℚ)) hni
        rw [this]
        ring
      · rw [if_neg hneg, if_neg (by omega)]
        have hni : (n : Int) = v := by omega
        rw [show (n : ℚ) = (v : ℚ) from by exact_mod_cast congrArg (fun z : Int => (z : ℚ)) hni]
        ring
    by_cases hce : 52 ≤ e
    · rw [if_pos (show 1075 ≤ 1023 + e by omega)]
      refine congrArg some (hsign _ ?_)
      rw [hqm, show 1023 + e - 1075 = e - 52 by omega]
      have hqn : q * 2 ^ (e - 52) = n := by
        have hee : e = 52 ∨ e = 53 := by omega
        rcases hee with h52 | h53
        · rw [hq, h52, Nat.mul_div_cancel _ (show 0 < 2 ^ 52 by positivity)]
          norm_num
        · have hle' : 2 ^ 53 ≤ n := by rw [← h53]; exact hle
          have hn53 : n = 2 ^ 53 := by omega
          rw [hq, h53, hn53]
          norm_num
      calc (q : ℚ) * 2 ^ (e - 52) = ((q * 2 ^ (e - 52) : Nat) : ℚ) := by push_cast; ring
        _ = (n : ℚ) := by rw [hqn]
    · rw [if_neg (show ¬ 1075 ≤ 1023 + e by omega)]
      refine congrArg some (hsign _ ?_)
      rw [hqm, show 1075 - (1023 + e) = 52 - e by omega]
      have hqn : q = n * 2 ^ (52 - e) := by
        rw [hq, show (52 : Nat) = e + (52 - e) by omega, pow_add,
          show n * (2 ^ e * 2 ^ (52 - e)) = n * 2 ^ (52 - e) * 2 ^ e by ring,
          Nat.mul_div_cancel _ (by positivity),
          show e + (52 - e) - e = 52 - e by omega]
      rw [hqn]
      push_cast
      rw [mul_div_assoc, div_self (by positivity), mul_one]

/-- Write-then-read on a double-tagged (0x07) estate field stores the
IEEE-754 image of the value exactly, for every integer of magnitude at
most 2^53. -/
lemma estate7_write_read (data : Buffer) (f : FieldInfo) (v : Int)
    (ht : f.type = 0x07) (hroom : f.valueOffset + 8 ≤ data.length)
    (hv : v.natAbs ≤ 2 ^ 53) :
    readEstate (writeEstate data (some f) v) (some f) = some ((v : ℚ)) := by
  set bits := encodeF64ofInt v with hbits
  have hblt : bits < 2 ^ 64 := encodeF64_lt v hv
  set src := bytesOfNatBE 8 bits with hsrc
  have hsl : src.length = 8 := length_bytesOfNatBE 8 bits
  set res := setManyAux data f.valueOffset src with hres
  have hwrite : writeEstate data (some f) v = res := by
    simp only [writeEstate, ht]
    norm_num
  have hreslen : res.length = data.length := by rw [hres, length_setManyAux]
  have hslice : (res.drop f.valueOffset).take 8 = src := by
    have hsl8 := slice_eq_of_byteAt res src f.valueOffset
      (by rw [hsl, hreslen]; omega)
      (fun i hi => by
        rw [hres, byteAt_setManyAux, if_pos ⟨by omega, by omega, by rw [hreslen] at *; omega⟩]
        congr 1
        omega)
    rw [hsl] at hsl8
    exact hsl8
  rw [hwrite]
  show (if f.type = 0x07 then
      (if ((res.drop f.valueOffset).take 8).length = 8 then
        decodeF64 (natOfBytesBE ((res.drop f.valueOffset).take 8)) else none)
    else if f.type = 0x08 then some ((toSigned32 (readU32 res f.valueOffset) : Int) : ℚ)
    else none) = some ((v : ℚ))
  rw [if_pos ht, hslice, hsl]
  norm_num
  rw [natOfBytesBE_bytesOfNatBE 8 bits, show (256 : Nat) ^ 8 = 2 ^ 64 by norm_num,
    Nat.mod_eq_of_lt hblt]
  exact decodeF64_encodeF64 v hv

/-- Claim C3 (counterexample): against an estate field tagged 0x08, a
write of 3000000000 is not rejected with an OutOfRange error — it is
performed (the buffer visibly changes) and silently clamps the stored
value to the Int32 maximum 2147483647. -/
theorem c3_counterexample :
    writeEstate demoEstate8 (findField demoEstate8 nameEstate) 3000000000 ≠ demoEstate8 ∧
    readEstate (writeEstate demoEstate8 (findField demoEstate8 nameEstate) 3000000000)
      (findField demoEstate8 nameEstate) = some ((2147483647 : Int) : ℚ) := by
  constructor
  · decide
  · rw [show findField demoEstate8 nameEstate = some ⟨0, 7, 8, 0x08⟩ from by decide]
    rw [estate8_write_read demoEstate8 ⟨0, 7, 8, 0x08⟩ 3000000000 (by decide) (by decide)]
    norm_num

/-- Claim C3 (amended): a buffer whose estate field is tagged 0x08
decodes through the signed 4-byte big-endian chain, and a write of
3000000000 (exceeding the Int32 maximum) is performed with the value
silently clamped to 2147483647 — no OutOfRange error exists; values
already in [0, 2147483647] are stored verbatim.  The same write against
a 0x07-tagged buffer succeeds, storing exactly 3000000000. -/
theorem c3_amended (data data7 : Buffer) (f8 f7 : FieldInfo) (fieldName : JSString)
    (hf8 : findField data fieldName = some f8) (ht8 : f8.type = 0x08)
    (hroom8 : f8.valueOffset + 4 ≤ data.length)
    (hf7 : findField data7 fieldName = some f7) (ht7 : f7.type = 0x07)
    (hroom7 : f7.valueOffset + 8 ≤ data7.length) :
    readEstate data (some f8) =
      some ((toSigned32 (readU32 data f8.valueOffset) : Int) : ℚ) ∧
    readEstate (writeEstate data (some f8) 3000000000) (some f8) =
      some ((2147483647 : Int) : ℚ) ∧
    (∀ v : Int, 0 ≤ v → v ≤ 2147483647 →
      readEstate (writeEstate data (some f8) v) (some f8) = some ((v : Int) : ℚ)) ∧
    readEstate (writeEstate data7 (some f7) 3000000000) (some f7) =
      some ((3000000000 : Int) : ℚ) := by
  refine ⟨?_, ?_, ?_, ?_⟩
  · show (if f8.type = 0x07 then _ else if f8.type = 0x08 then
      some ((toSigned32 (readU32 data f8.valueOffset) : Int) : ℚ) else none) = _
    rw [if_neg (by omega), if_pos ht8]
  · rw [estate8_write_read data f8 3000000000 ht8 hroom8]
    norm_num
  · intro v hv0 hv31
    rw [estate8_write_read data f8 v ht8 hroom8,
      show max 0 (min 2147483647 v) = v from by omega]
  · exact estate7_write_read data7 f7 3000000000 ht7 hroom7 (by norm_num)

/-- Claim C3 (witness for the amended theorem): on the concrete buffers,
the 0x08 write of 3000000000 reads back as 2147483647 and the 0x07 write
reads back as 3000000000. -/
theorem c3_amended_witness :
    findField demoEstate8 nameEstate = some ⟨0, 7, 8, 0x08⟩ ∧
    readEstate (writeEstate demoEstate8 (some ⟨0, 7, 8, 0x08⟩) 3000000000)
      (some ⟨0, 7, 8, 0x08⟩) = some ((2147483647 : Int) : ℚ) ∧
    readEstate (writeEstate demoEstate7 (some ⟨0, 7, 8, 0x07⟩) 3000000000)
      (some ⟨0, 7, 8, 0x07⟩) = some ((3000000000 : Int) : ℚ) := by
  have h := c3_amended demoEstate8 demoEstate7 ⟨0, 7, 8, 0x08⟩ ⟨0, 7, 8, 0x07⟩ nameEstate
    (by decide) (by decide) (by decide) (by decide) (by decide) (by decide)
  exact ⟨by decide, h.2.1, h.2.2.2⟩

set_option maxRecDepth 8000 in
/-- Claim C6 (counterexample): writing the one-character text "é"
(UTF-16 length 1, UTF-8 byte length 2) to a name field succeeds, but the
length prefix written is 1 — the UTF-16 code-unit count — not the UTF-8
byte length 2 required by the claim, and only the first encoded byte
0xC3 lands in the buffer; moreover a 300-character name is not rejected
with a LengthOverflow error: the write is performed after silent
truncation. -/
theorem c6_counterexample :
    writeName demoName1 (some ⟨0, 5, 6, 0x16⟩) [0xE9] =
      some [4, 110, 97, 109, 101, 0x16, 0, 1, 0xC3, 0] ∧
    readU16 [4, 110, 97, 109, 101, 0x16, 0, 1, 0xC3, 0] 6 = 1 ∧
    (utf8EncodeUnits [0xE9]).length = 2 ∧
    writeName demoName1 (some ⟨0, 5, 6, 0x16⟩) (List.replicate 300 65) ≠ none := by
  refine ⟨by decide, by decide, by decide, by decide⟩

/-- Claim C6 (amended): the 2-byte length prefix written by a string
write records `newName.length` — the UTF-16 code-unit count of the
(possibly truncated) text, which coincides with the UTF-8 byte length
only for ASCII text — capped by silent truncation at 255; an over-long
name is never rejected with a LengthOverflow error, the write simply
proceeds on the first 255 code units. -/
theorem c6_amended (data : Buffer) (fieldName : JSString) (f : FieldInfo) (s : JSString)
    (hf : findField data fieldName = some f) (ht : f.type = 0x16)
    (hwin : f.valueOffset + 2 + readU16 data f.valueOffset ≤ data.length)
    (hascii : ∀ u ∈ s, u < 0x80) :
    (255 < s.length → writeName data (some f) s = writeName data (some f) (s.take 255)) ∧
    ∃ res, writeName data (some f) s = some res ∧
      readU16 res f.valueOffset = min s.length 255 := by
  have htrunc : 255 < s.length →
      writeName data (some f) s = writeName data (some f) (s.take 255) := by
    intro hgt
    have hlt : (s.take 255).length = 255 := by
      rw [List.length_take]
      omega
    show (if f.type ≠ 0x16 then none else replaceStringValue data f.valueOffset
        (if s.length > 255 then s.take 255 else s)) =
      (if f.type ≠ 0x16 then none else replaceStringValue data f.valueOffset
        (if (s.take 255).length > 255 then (s.take 255).take 255 else s.take 255))
    rw [if_pos (by omega : s.length > 255), if_neg (by omega : ¬(s.take 255).length > 255)]
  refine ⟨htrunc, ?_⟩
  by_cases hgt : 255 < s.length
  · have hascii' : ∀ u ∈ s.take 255, u < 0x80 := fun u hu => hascii u (List.mem_of_mem_take hu)
    have hblen : (utf8EncodeUnits (s.take 255)).length = (s.take 255).length := by
      rw [utf8EncodeUnits_ascii _ hascii']
    obtain ⟨res, hrun, _, _, hu16, _, _⟩ :=
      replaceStringValue_spec data f.valueOffset (s.take 255) hwin hblen
        (by rw [List.length_take]; omega)
    refine ⟨res, ?_, ?_⟩
    · rw [htrunc hgt, writeName_eq data f (s.take 255) ht (by rw [List.length_take]; omega)]
      exact hrun
    · rw [hu16, List.length_take]
      omega
  · have hblen : (utf8EncodeUnits s).length = s.length := by
      rw [utf8EncodeUnits_ascii _ hascii]
    obtain ⟨res, hrun, _, _, hu16, _, _⟩ :=
      replaceStringValue_spec data f.valueOffset s hwin hblen (by omega)
    refine ⟨res, ?_, ?_⟩
    · rw [writeName_eq data f s ht (by omega)]
      exact hrun
    · rw [hu16]
      omega

/-- Claim C6 (witness for the amended theorem): on the concrete buffer,
writing "Zap" stores length prefix 3 = min(3, 255). -/
theorem c6_amended_witness :
    (∃ res, writeName demoStr (some ⟨0, 5, 6, 0x16⟩) [90, 97, 112] = some res ∧
      readU16 res (⟨0, 5, 6, 0x16⟩ : FieldInfo).valueOffset =
        min ([90, 97, 112] : JSString).length 255) ∧
    findField demoStr nameCity = some ⟨0, 5, 6, 0x16⟩ := by
  have h := c6_amended demoStr nameCity ⟨0, 5, 6, 0x16⟩ [90, 97, 112]
    (by decide) (by decide) (by decide) (by decide)
  exact ⟨h.2, by decide⟩

/-! ### Round-trip helper lemmas -/

/-- A modification that keeps length and every byte up to the tag byte
is invisible to the re-scan. -/
lemma findField_exact_of_agree (data res : Buffer) (nm : JSString) (f : FieldInfo)
    (hf : findField data nm = some f)
    (hagree : ∀ j, j ≤ f.typeOffset → byteAt res j = byteAt data j)
    (hlen : res.length = data.length) :
    findField res nm = some f := by
  obtain ⟨h1, h2, h3, h4, h5, h6⟩ := findFieldP_eq_some_elim hf
  exact findField_stable_exact data res _ f hf (fun j hj => hagree j (by omega)) (by omega)

lemma set2_find (data : Buffer) (nm : JSString) (f : FieldInfo) (b0 b1 : Nat)
    (hf : findField data nm = some f) (hvo : f.typeOffset < f.valueOffset) :
    findField ((data.set f.valueOffset b0).set (f.valueOffset + 1) b1) nm = some f := by
  apply findField_exact_of_agree data _ nm f hf ?_ (by simp [List.length_set])
  intro j hj
  rw [byteAt_set_other _ _ _ _ (by omega), byteAt_set_other _ _ _ _ (by omega)]

lemma set1_find (data : Buffer) (nm : JSString) (f : FieldInfo) (b0 : Nat)
    (hf : findField data nm = some f) (hvo : f.typeOffset < f.valueOffset) :
    findField (data.set f.valueOffset b0) nm = some f := by
  apply findField_exact_of_agree data _ nm f hf ?_ (by simp [List.length_set])
  intro j hj
  rw [byteAt_set_other _ _ _ _ (by omega)]

lemma set4_find (data : Buffer) (nm : JSString) (f : FieldInfo) (b0 b1 b2 b3 : Nat)
    (hf : findField data nm = some f) (hvo : f.typeOffset < f.valueOffset) :
    findField ((((data.set f.valueOffset b0).set (f.valueOffset + 1) b1).set
      (f.valueOffset + 2) b2).set (f.valueOffset + 3) b3) nm = some f := by
  apply findField_exact_of_agree data _ nm f hf ?_ (by simp [List.length_set])
  intro j hj
  rw [byteAt_set_other _ _ _ _ (by omega), byteAt_set_other _ _ _ _ (by omega),
    byteAt_set_other _ _ _ _ (by omega), byteAt_set_other _ _ _ _ (by omega)]

lemma setMany_find (data : Buffer) (nm : JSString) (f : FieldInfo) (src : List Nat)
    (hf : findField data nm = some f) (hvo : f.typeOffset < f.valueOffset) :
    findField (setManyAux data f.valueOffset src) nm = some f := by
  apply findField_exact_of_agree data _ nm f hf ?_ (by rw [length_setManyAux])
  intro j hj
  rw [byteAt_setManyAux, if_neg (by omega)]

/-- Write-then-read, int16 rank branch. -/
lemma rank16_wr (data : Buffer) (f : FieldInfo) (v : Int) (ht : f.type = 0x0e)
    (hroom : f.valueOffset + 2 ≤ data.length) :
    readRank (writeRank data (some f) v) (some f) =
      some (max 0 (min (MAX_RANK : Int) v)).toNat := by
  set c : Nat := (max 0 (min (MAX_RANK : Int) v)).toNat with hc
  have hc64 : c ≤ 64 := by
    simp only [hc, MAX_RANK]
    omega
  simp only [writeRank, readRank, ht]
  norm_num
  rw [readU16_set2 data f.valueOffset _ _ (by omega), clamp16_bytes c (by omega)]

/-- Write-then-read, int8 rank branch. -/
lemma rank8_wr (data : Buffer) (f : FieldInfo) (v : Int) (ht : f.type = 0x0f)
    (hroom : f.valueOffset + 1 ≤ data.length) :
    readRank (writeRank data (some f) v) (some f) =
      some (max 0 (min (MAX_RANK : Int) v)).toNat := by
  set c : Nat := (max 0 (min (MAX_RANK : Int) v)).toNat with hc
  have hc64 : c ≤ 64 := by
    simp only [hc, MAX_RANK]
    omega
  simp only [writeRank, readRank, ht]
  norm_num
  rw [byteAt_set_self _ _ _ (by omega), and255]
  omega

/-- Write-then-read, DSA supplies. -/
lemma dsa_wr (data : Buffer) (f : FieldInfo) (v : Int) (ht : f.type = 0x0e)
    (hroom : f.valueOffset + 2 ≤ data.length) :
    readDsaSupplies (writeDsaSupplies data (some f) v) (some f) =
      some (max 0 (min 32767 v)).toNat := by
  set c : Nat := (max 0 (min 32767 v)).toNat with hc
  have hc15 : c ≤ 32767 := by
    simp only [hc]
    omega
  simp only [writeDsaSupplies, readDsaSupplies, ht]
  norm_num
  rw [readU16_set2 data f.valueOffset _ _ (by omega), clamp16_bytes c (by omega)]

/-- Core of the string round-trip for ASCII text. -/
lemma string_wr (data : Buffer) (nm : JSString) (f : FieldInfo) (s : JSString)
    (hf : findField data nm = some f) (ht : f.type = 0x16)
    (hwin : f.valueOffset + 2 + readU16 data f.valueOffset ≤ data.length)
    (hascii : ∀ u ∈ s, u < 0x80) (hcap : s.length ≤ 255) :
    ∃ res, replaceStringValue data f.valueOffset s = some res ∧
      findField res nm = some f ∧
      readName res (some f) = some s ∧
      readGamemode res (some f) = some s := by
  have hblen : (utf8EncodeUnits s).length = s.length := by
    rw [utf8EncodeUnits_ascii s hascii]
  obtain ⟨res, hrun, _, _, _, hfind, _, hrn, hrg⟩ :=
    stringWrite_spec data nm f s hf ht hwin hblen (by omega)
  rw [utf8EncodeUnits_ascii s hascii, utf8Decode_ascii s hascii] at hrn hrg
  exact ⟨res, hrun, hfind, hrn, hrg⟩

/-- Claim C1 (counterexample): the round-trip law fails for string
fields holding non-ASCII text.  Writing the in-range one-character value
"é" (code unit 0xE9) to the located name field succeeds, but re-scanning
and reading back yields the replacement character U+FFFD, not "é" — the
in-place loop copies only `newName.length` = 1 of the 2 UTF-8 bytes. -/
theorem c1_counterexample :
    writeName demoName1 (some ⟨0, 5, 6, 0x16⟩) [0xE9] =
      some [4, 110, 97, 109, 101, 0x16, 0, 1, 0xC3, 0] ∧
    findField [4, 110, 97, 109, 101, 0x16, 0, 1, 0xC3, 0] nameCity = some ⟨0, 5, 6, 0x16⟩ ∧
    readName [4, 110, 97, 109, 101, 0x16, 0, 1, 0xC3, 0] (some ⟨0, 5, 6, 0x16⟩) =
      some [0xFFFD] ∧
    ([0xFFFD] : JSString) ≠ [0xE9] := by
  refine ⟨by decide, by decide, by decide, by decide⟩

/-- Claim C1 (amended): the write–rescan–read round-trip holds for every
field type over its valid range, with string text restricted to ASCII
(for non-ASCII text the UTF-16 length prefix undercounts the UTF-8 bytes
and the round-trip fails, see the counterexample): rank (0x0e and 0x0f,
values in [0,64]), estate (0x08 in [0,2147483647]; 0x07 for integers up
to 2^53 in magnitude), DSA supplies (0x0e, [0,32767]), uber booleans,
and ASCII strings of at most 255 units via writeName / writeGamemode. -/
theorem c1_amended :
    (∀ (data : Buffer) (nm : JSString) (f : FieldInfo) (v : Int),
      findField data nm = some f → f.type = 0x0e → f.valueOffset + 2 ≤ data.length →
      0 ≤ v → v ≤ 64 →
      findField (writeRank data (some f) v) nm = some f ∧
      readRank (writeRank data (some f) v) (some f) = some v.toNat) ∧
    (∀ (data : Buffer) (nm : JSString) (f : FieldInfo) (v : Int),
      findField data nm = some f → f.type = 0x0f → f.valueOffset + 1 ≤ data.length →
      0 ≤ v → v ≤ 64 →
      findField (writeRank data (some f) v) nm = some f ∧
      readRank (writeRank data (some f) v) (some f) = some v.toNat) ∧
    (∀ (data : Buffer) (nm : JSString) (f : FieldInfo) (v : Int),
      findField data nm = some f → f.type = 0x08 → f.valueOffset + 4 ≤ data.length →
      0 ≤ v → v ≤ 2147483647 →
      findField (writeEstate data (some f) v) nm = some f ∧
      readEstate (writeEstate data (some f) v) (some f) = some (v : ℚ)) ∧
    (∀ (data : Buffer) (nm : JSString) (f : FieldInfo) (v : Int),
      findField data nm = some f → f.type = 0x07 → f.valueOffset + 8 ≤ data.length →
      v.natAbs ≤ 2 ^ 53 →
      findField (writeEstate data (some f) v) nm = some f ∧
      readEstate (writeEstate data (some f) v) (some f) = some (v : ℚ)) ∧
    (∀ (data : Buffer) (nm : JSString) (f : FieldInfo) (v : Int),
      findField data nm = some f → f.type = 0x0e → f.valueOffset + 2 ≤ data.length →
      0 ≤ v → v ≤ 32767 →
      findField (writeDsaSupplies data (some f) v) nm = some f ∧
      readDsaSupplies (writeDsaSupplies data (some f) v) (some f) = some v.toNat) ∧
    (∀ (data : Buffer) (nm : JSString) (f : FieldInfo) (v : Bool),
      findField data nm = some f →
      readUber (writeUber data (some f) v) (findField (writeUber data (some f) v) nm) =
        some v) ∧
    (∀ (data res : Buffer) (nm : JSString) (f : FieldInfo) (s : JSString),
      findField data nm = some f → f.type = 0x16 →
      f.valueOffset + 2 + readU16 data f.valueOffset ≤ data.length →
      (∀ u ∈ s, u < 0x80) → s.length ≤ 255 →
      writeName data (some f) s = some res →
      findField res nm = some f ∧ readName res (some f) = some s) ∧
    (∀ (data res : Buffer) (nm : JSString) (f : FieldInfo) (g : JSString),
      findField data nm = some f → f.type = 0x16 →
      f.valueOffset + 2 + readU16 data f.valueOffset ≤ data.length →
      g ∈ GAMEMODES → writeGamemode data (some f) g = some res →
      findField res nm = some f ∧ readGamemode res (some f) = some g) := by
  refine ⟨?_, ?_, ?_, ?_, ?_, ?_, ?_, ?_⟩
  · -- rank, int16
    intro data nm f v hf ht hroom hv0 hv64
    obtain ⟨h1, h2, h3, h4, h5, h6⟩ := findFieldP_eq_some_elim hf
    rw [ht] at h6
    norm_num at h6
    have hwr : writeRank data (some f) v = (data.set f.valueOffset
        ((max 0 (min (MAX_RANK : Int) v)).toNat >>> 8 &&& 255)).set (f.valueOffset + 1)
        ((max 0 (min (MAX_RANK : Int) v)).toNat &&& 255) := by
      simp only [writeRank, ht]
      norm_num
    constructor
    · rw [hwr]
      exact set2_find data nm f _ _ hf (by omega)
    · rw [rank16_wr data f v ht hroom,
        show max 0 (min (MAX_RANK : Int) v) = v from by simp only [MAX_RANK]; omega]
  · -- rank, int8
    intro data nm f v hf ht hroom hv0 hv64
    obtain ⟨h1, h2, h3, h4, h5, h6⟩ := findFieldP_eq_some_elim hf
    rw [ht] at h6
    norm_num at h6
    have hwr : writeRank data (some f) v = data.set f.valueOffset
        ((max 0 (min (MAX_RANK : Int) v)).toNat &&& 255) := by
      simp only [writeRank, ht]
      norm_num
    constructor
    · rw [hwr]
      exact set1_find data nm f _ hf (by omega)
    · rw [rank8_wr data f v ht hroom,
        show max 0 (min (MAX_RANK : Int) v) = v from by simp only [MAX_RANK]; omega]
  · -- estate, int32
    intro data nm f v hf ht hroom hv0 hv31
    obtain ⟨h1, h2, h3, h4, h5, h6⟩ := findFieldP_eq_some_elim hf
    rw [ht] at h6
    norm_num at h6
    have hwr : writeEstate data (some f) v = ((((data.set f.valueOffset
        ((max 0 (min 2147483647 v)).toNat >>> 24 &&& 255)).set (f.valueOffset + 1)
        ((max 0 (min 2147483647 v)).toNat >>> 16 &&& 255)).set (f.valueOffset + 2)
        ((max 0 (min 2147483647 v)).toNat >>> 8 &&& 255)).set (f.valueOffset + 3)
        ((max 0 (min 2147483647 v)).toNat &&& 255)) := by
      simp only [writeEstate, ht]
      norm_num
    constructor
    · rw [hwr]
      exact set4_find data nm f _ _ _ _ hf (by omega)
    · rw [estate8_write_read data f v ht hroom,
        show max 0 (min 2147483647 v) = v from by omega]
  · -- estate, double
    intro data nm f v hf ht hroom hv
    obtain ⟨h1, h2, h3, h4, h5, h6⟩ := findFieldP_eq_some_elim hf
    rw [ht] at h6
    norm_num at h6
    have hwr : writeEstate data (some f) v =
        setManyAux data f.valueOffset (bytesOfNatBE 8 (encodeF64ofInt v)) := by
      simp only [writeEstate, ht]
      norm_num
    constructor
    · rw [hwr]
      exact setMany_find data nm f _ hf (by omega)
    · exact estate7_write_read data f v ht hroom hv
  · -- DSA supplies
    intro data nm f v hf ht hroom hv0 hv15
    obtain ⟨h1, h2, h3, h4, h5, h6⟩ := findFieldP_eq_some_elim hf
    rw [ht] at h6
    norm_num at h6
    have hwr : writeDsaSupplies data (some f) v = (data.set f.valueOffset
        ((max 0 (min 32767 v)).toNat >>> 8 &&& 255)).set (f.valueOffset + 1)
        ((max 0 (min 32767 v)).toNat &&& 255) := by
      simp only [writeDsaSupplies, ht]
      norm_num
    constructor
    · rw [hwr]
      exact set2_find data nm f _ _ hf (by omega)
    · rw [dsa_wr data f v ht hroom, show max 0 (min 32767 v) = v from by omega]
  · -- uber
    intro data nm f v hf
    obtain ⟨h1, h2, h3, h4, h5, h6⟩ := findFieldP_eq_some_elim hf
    set pat := utf8EncodeUnits nm
    set res := writeUber data (some f) v with hres
    have hresdef : res = data.set f.typeOffset (if v then 0x11 else 0x12) := rfl
    have hagree : ∀ j, j ≤ f.nameOffset + pat.length → byteAt res j = byteAt data j := by
      intro j hj
      rw [hresdef, byteAt_set_other _ _ _ _ (by omega)]
    have hfind := findField_stable data res pat f hf hagree
      (by rw [hresdef, List.length_set]; omega)
    have htagv : byteAt res (f.nameOffset + 1 + pat.length) = if v then 0x11 else 0x12 := by
      rw [hresdef, ← h4, byteAt_set_self _ _ _ (by omega)]
    rw [htagv] at hfind
    rw [show findField res nm = findFieldP res pat from rfl, hfind]
    cases v <;> simp [readUber]
  · -- name
    intro data res nm f s hf ht hwin hascii hcap hres
    obtain ⟨res', hrun, hfind, hrn, hrg⟩ := string_wr data nm f s hf ht hwin hascii hcap
    rw [writeName_eq data f s ht hcap, hrun] at hres
    obtain rfl := Option.some.inj hres
    exact ⟨hfind, hrn⟩
  · -- gamemode
    intro data res nm f g hf ht hwin hmem hres
    have hga : (∀ u ∈ g, u < 0x80) ∧ g.length ≤ 255 := by
      fin_cases hmem <;> exact ⟨by decide, by decide⟩
    obtain ⟨res', hrun, hfind, hrn, hrg⟩ := string_wr data nm f g hf ht hwin hga.1 hga.2
    rw [writeGamemode_eq data f g ht hmem, hrun] at hres
    obtain rfl := Option.some.inj hres
    exact ⟨hfind, hrg⟩

/-- Claim C1 (witness for the amended theorem): round-trips at concrete
inputs for rank, int32 estate, double estate, uber and an ASCII name. -/
theorem c1_amended_witness :
    readRank (writeRank demoRank (some ⟨1, 10, 11, 0x0e⟩) 42)
      (some ⟨1, 10, 11, 0x0e⟩) = some 42 ∧
    readEstate (writeEstate demoEstate8 (some ⟨0, 7, 8, 0x08⟩) 123456789)
      (some ⟨0, 7, 8, 0x08⟩) = some ((123456789 : Int) : ℚ) ∧
    readEstate (writeEstate demoEstate7 (some ⟨0, 7, 8, 0x07⟩) 3000000000)
      (some ⟨0, 7, 8, 0x07⟩) = some ((3000000000 : Int) : ℚ) ∧
    readUber (writeUber demoUber (some ⟨0, 5, 5, 0x11⟩) false)
      (findField (writeUber demoUber (some ⟨0, 5, 5, 0x11⟩) false) nameUber) = some false ∧
    readName [4, 110, 97, 109, 101, 0x16, 0, 3, 90, 97, 112, 0, 0, 0, 0,
        8, 103, 97, 109, 101, 109, 111, 100, 101, 0x16, 0, 4, 69, 65, 83, 89, 0]
      (some ⟨0, 5, 6, 0x16⟩) = some [90, 97, 112] := by
  refine ⟨?_, ?_, ?_, ?_, ?_⟩
  · exact (c1_amended.1 demoRank nameRank ⟨1, 10, 11, 0x0e⟩ 42
      (by decide) (by decide) (by decide) (by decide) (by decide)).2
  · exact (c1_amended.2.2.1 demoEstate8 nameEstate ⟨0, 7, 8, 0x08⟩ 123456789
      (by decide) (by decide) (by decide) (by decide) (by decide)).2
  · exact (c1_amended.2.2.2.1 demoEstate7 nameEstate ⟨0, 7, 8, 0x07⟩ 3000000000
      (by decide) (by decide) (by decide) (by decide)).2
  · exact c1_amended.2.2.2.2.2.1 demoUber nameUber ⟨0, 5, 5, 0x11⟩ false (by decide)
  · exact (c1_amended.2.2.2.2.2.2.1 demoStr
      [4, 110, 97, 109, 101, 0x16, 0, 3, 90, 97, 112, 0, 0, 0, 0,
        8, 103, 97, 109, 101, 109, 111, 100, 101, 0x16, 0, 4, 69, 65, 83, 89, 0]
      nameCity ⟨0, 5, 6, 0x16⟩ [90, 97, 112]
      (by decide) (by decide) (by decide) (by decide) (by decide) (by decide)).2


end TheoTown
